import Mathlib

/-!
Verification development for the Radio-Rez reservation system.

This file gives a shallow embedding, in Lean 4, of the core of the
repository (the time-slot classifier `src/domain/time_rules.py`, the
reservation lifecycle of `src/storage/repository.py` and
`src/services/reservation_service.py`, and the cross-reservation range
rollup `ReservationService.get_plan_ozet_range_data`), and proves or
refutes the specification's claims about it.

Modelling conventions:
  * Python floats are modelled as exact rationals (`ℚ`); `round(x, n)`
    is modelled as round-half-to-even at `n` decimal digits, matching
    Python's rounding mode on exactly representable values.
  * Python dicts are modelled as association lists with
    update-or-append writes (`alSet`) and first-match reads (`alGet`),
    which reproduces dict lookup (last write wins) and dict iteration
    order (first insertion position is kept on overwrite).
  * Python `datetime.date` values are `PDate` triples; construction
    validity (`date(y, m, d)` raising `ValueError`) is the predicate
    `PDate.valid` / the smart constructor `mkDate?`.
  * Strings use Lean's `String`; `str.strip()` is `pyStrip`,
    `str.upper()` / `str.lower()` are `pyUpper` / `pyLower` (ASCII case
    maps, implemented over the character list so that the kernel can
    evaluate them; the claims never depend on non-ASCII case folding).
-/

/-- Association list read: first binding wins (together with the
update-or-append write below this models a Python dict). -/
def alGet {α β : Type} [DecidableEq α] : List (α × β) → α → Option β
  | [], _ => none
  | (k, v) :: rest, key => if k = key then some v else alGet rest key

/-- Association list write: update the existing binding in place, or
append a new binding at the end (Python dict assignment). -/
def alSet {α β : Type} [DecidableEq α] : List (α × β) → α → β → List (α × β)
  | [], key, val => [(key, val)]
  | (k, v) :: rest, key, val =>
    if k = key then (k, val) :: rest else (k, v) :: alSet rest key val

theorem alGet_alSet_self {α β : Type} [DecidableEq α] (m : List (α × β)) (k : α) (v : β) :
    alGet (alSet m k v) k = some v := by
  induction m with
  | nil => simp [alGet, alSet]
  | cons kv rest ih =>
    obtain ⟨k', v'⟩ := kv
    by_cases h : k' = k <;> simp [alGet, alSet, h, ih]

theorem alGet_alSet_other {α β : Type} [DecidableEq α] (m : List (α × β)) (k k' : α) (v : β)
    (h : k ≠ k') : alGet (alSet m k v) k' = alGet m k' := by
  induction m with
  | nil => simp [alGet, alSet, h]
  | cons kv rest ih =>
    obtain ⟨k₀, v₀⟩ := kv
    by_cases h₀ : k₀ = k
    · subst h₀
      simp [alGet, alSet, h]
    · simp only [alSet, if_neg h₀, alGet]
      by_cases h₁ : k₀ = k' <;> simp [h₁, ih]

/-- Candidate values deduplicated in first-seen order (the `uniq` loop of
`_pick_single` and the set collections of the service, later sorted). -/
def firstUniq {α : Type} [DecidableEq α] (l : List α) : List α :=
  l.foldl (fun acc v => if v ∈ acc then acc else acc ++ [v]) []

/-- Characters of a string with leading and trailing whitespace removed. -/
def trimChars (cs : List Char) : List Char :=
  ((cs.dropWhile Char.isWhitespace).reverse.dropWhile Char.isWhitespace).reverse

/-- Python `str.strip()` (implemented on the character list so that it
reduces inside the kernel). -/
def pyStrip (s : String) : String := ⟨trimChars s.data⟩

/-- Python `str.upper()` (ASCII case map, as in every use in this code). -/
def pyUpper (s : String) : String := ⟨s.data.map Char.toUpper⟩

/-- Python `str.lower()` (ASCII case map). -/
def pyLower (s : String) : String := ⟨s.data.map Char.toLower⟩

/-- Split a character list at every occurrence of `sep`
(Python `str.split(sep)` for a one-character separator). -/
def splitChar (sep : Char) (cs : List Char) : List (List Char) :=
  cs.foldr
    (fun c acc =>
      match acc with
      | [] => if c = sep then [[], []] else [[c]]
      | g :: rest => if c = sep then [] :: g :: rest else (c :: g) :: rest)
    [[]]

/-- Python `str.split()` with no argument: split on whitespace runs,
dropping empty fields. -/
def splitWhitespace (cs : List Char) : List (List Char) :=
  (cs.foldr
    (fun c acc =>
      match acc with
      | [] => if c.isWhitespace then [[], []] else [[c]]
      | g :: rest => if c.isWhitespace then [] :: g :: rest else (c :: g) :: rest)
    [[]]).filter (· ≠ [])

/-- Numeric value of a digit string. -/
def digitsVal (cs : List Char) : Nat :=
  cs.foldl (fun n c => n * 10 + (c.toNat - '0'.toNat)) 0

/-- Python `int(s)`: optional sign and a non-empty digit string, with
surrounding whitespace allowed; `none` models the raised `ValueError`. -/
def parseInt? (s : String) : Option Int :=
  let cs := trimChars s.data
  match cs with
  | '-' :: rest =>
    if rest ≠ [] ∧ rest.all (·.isDigit) then some (-(digitsVal rest : Int)) else none
  | '+' :: rest =>
    if rest ≠ [] ∧ rest.all (·.isDigit) then some (digitsVal rest : Int) else none
  | _ => if cs ≠ [] ∧ cs.all (·.isDigit) then some (digitsVal cs : Int) else none

/-- Python `float(s)` restricted to plain decimal literals
`[sign] digits [. digits]` (the shapes the access tables hold);
anything else is the swallowed `ValueError`. -/
def parseFloat? (s : String) : Option ℚ :=
  let core : List Char → Option ℚ := fun cs =>
    match splitChar '.' cs with
    | [a] => if a ≠ [] ∧ a.all (·.isDigit) then some (digitsVal a : ℚ) else none
    | [a, b] =>
      if (a ≠ [] ∨ b ≠ []) ∧ a.all (·.isDigit) ∧ b.all (·.isDigit) then
        some ((digitsVal a : ℚ) + (digitsVal b : ℚ) / (10 ^ b.length : ℚ))
      else none
    | _ => none
  match trimChars s.data with
  | '-' :: rest => (core rest).map (fun q => -q)
  | '+' :: rest => core rest
  | cs => core cs

/-- Lexicographic code-point comparison of character lists (Python `str`
ordering, strict). -/
def charListLT : List Char → List Char → Bool
  | [], [] => false
  | [], _ :: _ => true
  | _ :: _, [] => false
  | a :: as, b :: bs => if a < b then true else if b < a then false else charListLT as bs

/-- Python `a <= b` on strings. -/
def pyStrLE (a b : String) : Bool := !charListLT b.data a.data

/-- Calendar dates as raw `(year, month, day)` triples (Python
`datetime.date`; values taken from payloads are not assumed valid). -/
structure PDate where
  year : Nat
  month : Nat
  day : Nat
deriving DecidableEq, Repr

/-- Gregorian leap-year rule (Python `calendar.isleap`). -/
def isLeap (y : Nat) : Bool := (y % 4 = 0 && y % 100 ≠ 0) || y % 400 = 0

/-- Days in a month (Python `calendar.monthrange(y, m)[1]`). -/
def daysInMonth (y m : Nat) : Nat :=
  if m = 1 ∨ m = 3 ∨ m = 5 ∨ m = 7 ∨ m = 8 ∨ m = 10 ∨ m = 12 then 31
  else if m = 4 ∨ m = 6 ∨ m = 9 ∨ m = 11 then 30
  else if m = 2 then (if isLeap y then 29 else 28)
  else 0

/-- Validity of a raw date triple, the domain of Python's `date(y, m, d)`
constructor. -/
def PDate.valid (d : PDate) : Prop :=
  1 ≤ d.year ∧ d.year ≤ 9999 ∧ 1 ≤ d.month ∧ d.month ≤ 12 ∧
    1 ≤ d.day ∧ d.day ≤ daysInMonth d.year d.month

instance (d : PDate) : Decidable d.valid := by
  unfold PDate.valid; infer_instance

/-- Smart constructor for `date(yy, mm, day)` inside a `try`/`except`
block: `none` models the swallowed `ValueError`.  The day comes from
`int(...)` parsing and may be negative, hence the `Int` argument. -/
def mkDate? (yy mm : Nat) (day : Int) : Option PDate :=
  if 0 < day then
    let d : PDate := ⟨yy, mm, day.toNat⟩
    if d.valid then some d else none
  else none

/-- Date comparison `a <= b` (Python `date` ordering, lexicographic). -/
def dateLE (a b : PDate) : Bool :=
  decide (a.year < b.year ∨ (a.year = b.year ∧
    (a.month < b.month ∨ (a.month = b.month ∧ a.day ≤ b.day))))

/-- Date comparison `a < b`. -/
def dateLT (a b : PDate) : Bool :=
  decide (a.year < b.year ∨ (a.year = b.year ∧
    (a.month < b.month ∨ (a.month = b.month ∧ a.day < b.day))))

theorem dateLE_of_dateLT {a b : PDate} (h : dateLT a b = true) : dateLE a b = true := by
  simp only [dateLT, decide_eq_true_eq] at h
  simp only [dateLE, decide_eq_true_eq]
  omega

theorem dateLE_false_of_dateLT {a b : PDate} (h : dateLT a b = true) :
    dateLE b a = false := by
  simp only [dateLT, decide_eq_true_eq] at h
  simp only [dateLE, decide_eq_false_iff_not, decide_eq_true_eq]
  omega

/-- Successor date (the `d + timedelta(days=1)` step of the range loop). -/
def nextDay (d : PDate) : PDate :=
  if d.day < daysInMonth d.year d.month then ⟨d.year, d.month, d.day + 1⟩
  else if d.month < 12 then ⟨d.year, d.month + 1, 1⟩
  else ⟨d.year + 1, 1, 1⟩

/-- Numeric key that strictly increases along `nextDay` for in-range
months/days; it only serves to bound the fuel of the date-range loop. -/
def dateFuelKey (d : PDate) : Nat := d.year * 1000 + d.month * 50 + d.day

/-- Fuelled unfolding of the Python loop
`while d <= re: dates.append(d); d += timedelta(days=1)`. -/
def dateListAux : Nat → PDate → PDate → List PDate
  | 0, _, _ => []
  | fuel + 1, d, re_ =>
    if dateLE d re_ then d :: dateListAux fuel (nextDay d) re_ else []

/-- All days from `rs` to `re` inclusive, in order (the `dates` list of
`get_plan_ozet_range_data`).  The fuel bound is sufficient for every
pair of valid dates. -/
def dateRange (rs re_ : PDate) : List PDate :=
  dateListAux (dateFuelKey re_ + 1 - dateFuelKey rs) rs re_

/-- Spot time of a plan-grid row: minutes after midnight of
`07:00 + row_idx * 15min` (`ReservationService._row_idx_to_time`,
kept as minutes; Python's `time()` constructor would raise outside
`0 ≤ mins < 1440`, which theorems guard by slot-range hypotheses). -/
def rowIdxToMins (row_idx : Int) : Int := 7 * 60 + row_idx * 15

/-- Daypart classification on minutes after midnight
(`classify_dt_odt` of `src/domain/time_rules.py`): DT on
`[07:00, 10:00)` and `[17:00, 20:00)`, otherwise ODT. -/
def classifyMins (mins : Int) : String :=
  if (7 * 60 ≤ mins ∧ mins < 10 * 60) ∨ (17 * 60 ≤ mins ∧ mins < 20 * 60)
  then "DT" else "ODT"

/-- Daypart classification of a time of day `hour:minute`
(`classify_dt_odt` applied to a `datetime.time`). -/
def classify_dt_odt (hour minute : Nat) : String :=
  classifyMins ((hour : Int) * 60 + (minute : Int))

/-- C2: for every time of day, the classifier returns `"DT"` exactly on
the half-open windows `[07:00, 10:00)` and `[17:00, 20:00)` and returns
`"ODT"` otherwise; the boundary times behave as the claim lists. -/
theorem classify_dt_odt_halfopen (hour minute : Nat) (hh : hour < 24) (hm : minute < 60) :
    (classify_dt_odt hour minute = "DT" ↔
      ((7 ≤ hour ∧ hour < 10) ∨ (17 ≤ hour ∧ hour < 20))) ∧
    (classify_dt_odt hour minute = "DT" ∨ classify_dt_odt hour minute = "ODT") ∧
    classify_dt_odt 9 59 = "DT" ∧ classify_dt_odt 10 0 = "ODT" ∧
    classify_dt_odt 16 59 = "ODT" ∧ classify_dt_odt 17 0 = "DT" ∧
    classify_dt_odt 19 59 = "DT" ∧ classify_dt_odt 20 0 = "ODT" := by
  refine ⟨?_, ?_, by decide, by decide, by decide, by decide, by decide, by decide⟩
  · unfold classify_dt_odt classifyMins
    split
    · rename_i hc
      simp only [true_iff, String.reduceEq]
      omega
    · rename_i hc
      simp only [String.reduceEq, false_iff]
      omega
  · unfold classify_dt_odt classifyMins
    split
    · exact Or.inl rfl
    · exact Or.inr rfl

/-- C2 witness: the theorem applied at the concrete time 09:59. -/
theorem classify_dt_odt_halfopen_witness :
    classify_dt_odt 9 59 = "DT" ↔ ((7 ≤ 9 ∧ 9 < 10) ∨ (17 ≤ 9 ∧ 9 < 20)) :=
  (classify_dt_odt_halfopen 9 59 (by decide) (by decide)).1

/-- Python `int(x)` on a float/rational: truncation toward zero. -/
def pyTrunc (q : ℚ) : Int := if 0 ≤ q then q.floor else -((-q).floor)

/-- Round-half-to-even to an integer (Python's `round` mode). -/
def roundHalfEven (q : ℚ) : Int :=
  let f := q.floor
  let r := q - f
  if r < 1/2 then f else if 1/2 < r then f + 1 else if f % 2 = 0 then f else f + 1

/-- Python `round(q, digits)` for a non-negative digit count. -/
def pyRound (q : ℚ) (digits : Nat) : ℚ :=
  (roundHalfEven (q * (10 ^ digits)) : ℚ) / (10 ^ digits)

/-- Two-digit zero padding (Python `f"{n:02d}"` for non-negative `n`). -/
def pad2 (n : Nat) : String := if n < 10 then "0" ++ toString n else toString n

/-- Strings sorted ascending (Python `sorted` on `str`; code-point order). -/
def sortStrings (l : List String) : List String :=
  l.insertionSort (fun a b => pyStrLE a b = true)

/-- Matcher for the prepared-by timestamp suffix
`\s-\s\d{2}\.\d{2}\.\d{4}\s\d{2}:\d{2}.*$` at the head of a character
list (`ReservationService._PREPARED_BY_STAMP_RE`). -/
def isStampTail : List Char → Bool
  | w₁ :: '-' :: w₂ :: a :: b :: '.' :: c :: d :: '.' :: e :: f :: g :: h ::
      w₃ :: i :: j :: ':' :: k :: l :: _ =>
    w₁.isWhitespace && w₂.isWhitespace && w₃.isWhitespace &&
      [a, b, c, d, e, f, g, h, i, j, k, l].all (·.isDigit)
  | _ => false

/-- Drop everything from the leftmost timestamp-suffix match on
(`re.sub(pattern, "", s)` with a `.*$`-terminated pattern). -/
def stripStampFrom : List Char → List Char
  | [] => []
  | c :: rest => if isStampTail (c :: rest) then [] else c :: stripStampFrom rest

/-- `ReservationService._clean_prepared_by_name`: keep only the name in
front of a `" - dd.mm.yyyy hh:mm..."` stamp. -/
def cleanPreparedByName (raw : String) : String :=
  let s := pyStrip raw
  if s = "" then "" else pyStrip (String.mk (stripStampFrom s.data))

/-- Reservation code definition `{"code", "desc", "duration_sec"}`. -/
structure CodeDef where
  code : String := ""
  desc : String := ""
  duration_sec : Int := 0
deriving DecidableEq, Repr

/-- Confirmed-reservation payload: the JSON dict assembled by
`ReservationService.confirm` and consumed by the rollup functions.
Legacy fallback keys (`agency`, `advertiser`, `product`,
`reservation_no`) that older records may carry are separate fields;
an absent key is the default value (empty / `none`). -/
structure Payload where
  agency_name : String := ""
  advertiser_name : String := ""
  product_name : String := ""
  plan_title : String := ""
  spot_code : String := ""
  spot_duration_sec : Int := 0
  code_definition : String := ""
  code_defs : List CodeDef := []
  note_text : String := ""
  prepared_by : String := ""
  plan_date : Option PDate := none
  spot_time : String := ""
  dt_odt : String := ""
  channel_name : String := ""
  channel_price_year : Nat := 0
  channel_price_month : Nat := 0
  channel_price_dt : ℚ := 0
  channel_price_odt : ℚ := 0
  access_hour_map : List (String × ℚ) := []
  plan_cells : List (String × String) := []
  adet_total : Nat := 0
  agency_commission_pct : Int := 0
  created_at : String := ""
  reservation_no : String := ""
  agency : String := ""
  advertiser : String := ""
  product : String := ""
  is_span : Bool := false
  span_start : Option PDate := none
  span_end : Option PDate := none
  span_month_matrices : List ((Nat × Nat) × List (String × String)) := []
deriving DecidableEq, Repr

/-- Channel row of the `channels` table as returned by
`Repository.list_channels`. -/
structure Channel where
  id : Int
  name : String
  is_active : Int
deriving DecidableEq, Repr

/-- Reservation row as returned by
`Repository.list_confirmed_reservations_by_plan_title`
(`reservation_no` is `""` for a NULL column). -/
structure ReservationRecord where
  id : Int
  reservation_no : String := ""
  advertiser_name : String := ""
  plan_title : String := ""
  created_at : String := ""
  is_confirmed : Int := 1
  payload : Payload := {}
deriving DecidableEq, Repr

/-- State of the persistence collaborator visible to the service
(spec §6): stored reservations (already in the `created_at DESC` order
the SQL queries return), the channel table, and the price/access lookup
primitives. -/
structure Repo where
  reservations : List ReservationRecord := []
  channels : List Channel := []
  prices : Nat → String → List ((Int × Nat) × (ℚ × ℚ)) := fun _ _ => []
  accessSetForYear : Nat → Option Int := fun _ => none
  latestAccessSet : Option Int := none
  accessRows : Int → List (String × List String) := fun _ => []
  accessChannelHourMap : Int → String → List (String × ℚ) := fun _ _ => []

/-- `Repository.list_confirmed_reservations_by_plan_title`: confirmed
rows whose `plan_title` column equals the stripped title, up to `limit`. -/
def listConfirmedByPlanTitle (repo : Repo) (plan_title : String) (limit : Nat) :
    List ReservationRecord :=
  let pt := pyStrip plan_title
  ((repo.reservations.filter (fun r => r.plan_title = pt ∧ r.is_confirmed = 1)).take limit)

/-- `ReservationService._get_access_hour_map_for_channel` (collaborator
errors degrade to an empty map). -/
def getAccessHourMapForChannel (repo : Repo) (channel_name : String) (year : Nat) :
    List (String × ℚ) :=
  match (repo.accessSetForYear year).orElse (fun _ => repo.latestAccessSet) with
  | none => []
  | some set_id => repo.accessChannelHourMap set_id (pyStrip channel_name)

/-- Counter state of the `meta` table (`reservation_seq` key) plus the
stored reservation rows: the mutable state of `Repository`. -/
structure MetaDB where
  reservation_seq : Option Nat := none
  rows : List ReservationRecord := []
deriving Repr

/-- First letter of the stripped advertiser name, upper-cased, with the
`"X"` fallback (`advertiser_name.strip()[:1].upper() or "X"`). -/
def advLetter (advertiser : String) : String :=
  match (pyStrip advertiser).data with
  | [] => "X"
  | c :: _ => ⟨[c.toUpper]⟩

/-- `Repository.next_reservation_no`: builds
`{FIRST}-{YYYY}W{WEEK:02d}-{SEQ}` from the counter (1000 when the meta
row is absent) and advances the counter by one.  The ISO year/week of
`when` are passed in (Python computes them with
`datetime.isocalendar`). -/
def next_reservation_no (seqState : Option Nat) (advertiser : String)
    (isoYear isoWeek : Nat) : String × Option Nat :=
  let seq := seqState.getD 1000
  (advLetter advertiser ++ "-" ++ toString isoYear ++ "W" ++ pad2 isoWeek ++ "-" ++
      toString seq,
    some (seq + 1))

/-- `Repository.create_reservation`: allocates a reservation number only
when `confirmed`, and appends the new row (the SQLite transaction either
fully commits or fully rolls back; the success path is modelled). -/
def create_reservation (db : MetaDB) (advertiser_name : String) (payload : Payload)
    (confirmed : Bool) (isoYear isoWeek : Nat) (nowStr : String) :
    MetaDB × ReservationRecord :=
  let (resNo, seq') :=
    if confirmed then next_reservation_no db.reservation_seq advertiser_name isoYear isoWeek
    else ("", db.reservation_seq)
  let rec_ : ReservationRecord :=
    { id := (db.rows.length : Int) + 1
      reservation_no := resNo
      advertiser_name := advertiser_name
      plan_title := pyStrip payload.plan_title
      created_at := nowStr
      is_confirmed := if confirmed then 1 else 0
      payload := payload }
  ({ reservation_seq := seq', rows := db.rows ++ [rec_] }, rec_)

/-- `ReservationService.export_test`: the exported payload of an
unconfirmed test export carries an empty reservation number and touches
no repository state (the Excel file itself is out of scope). -/
def export_test (confirmed : Payload) (nowIso : String) : Payload :=
  { confirmed with reservation_no := "", created_at := nowIso }

/-- `n` successive confirmed creations against the same repository state
(the sequence-allocation scenario of the spec). -/
def confirmedRun (advertiser : String) (payload : Payload) (isoYear isoWeek : Nat)
    (nowStr : String) : Nat → MetaDB → List ReservationRecord × MetaDB
  | 0, db => ([], db)
  | n + 1, db =>
    let step := create_reservation db advertiser payload true isoYear isoWeek nowStr
    let rest := confirmedRun advertiser payload isoYear isoWeek nowStr n step.1
    (step.2 :: rest.1, rest.2)

theorem create_reservation_true_seq (db : MetaDB) (adv : String) (payload : Payload)
    (yr wk : Nat) (nowStr : String) :
    ((create_reservation db adv payload true yr wk nowStr).1).reservation_seq
      = some (db.reservation_seq.getD 1000 + 1) := rfl

theorem create_reservation_true_no (db : MetaDB) (adv : String) (payload : Payload)
    (yr wk : Nat) (nowStr : String) :
    ((create_reservation db adv payload true yr wk nowStr).2).reservation_no
      = advLetter adv ++ "-" ++ toString yr ++ "W" ++ pad2 wk ++ "-" ++
          toString (db.reservation_seq.getD 1000) := rfl

theorem confirmedRun_numbers (adv : String) (payload : Payload) (yr wk : Nat)
    (nowStr : String) : ∀ (n : Nat) (db : MetaDB),
    ((confirmedRun adv payload yr wk nowStr n db).1.map (·.reservation_no)
      = (List.range n).map (fun j =>
          advLetter adv ++ "-" ++ toString yr ++ "W" ++ pad2 wk ++ "-" ++
            toString (db.reservation_seq.getD 1000 + j))) ∧
    ((confirmedRun adv payload yr wk nowStr n db).2.reservation_seq
      = match n with
        | 0 => db.reservation_seq
        | k + 1 => some (db.reservation_seq.getD 1000 + k + 1)) := by
  intro n
  induction n with
  | zero => intro db; simp [confirmedRun]
  | succ m ih =>
    intro db
    obtain ⟨ih1, ih2⟩ := ih (create_reservation db adv payload true yr wk nowStr).1
    constructor
    · simp only [confirmedRun, List.map_cons, create_reservation_true_no, ih1,
        create_reservation_true_seq, Option.getD_some]
      rw [List.range_succ_eq_map, List.map_cons, List.map_map]
      refine congrArg₂ _ (by simp) ?_
      refine List.map_congr_left (fun j _ => ?_)
      simp only [Function.comp]
      have : db.reservation_seq.getD 1000 + 1 + j = db.reservation_seq.getD 1000 + (j + 1) := by
        omega
      rw [this]
    · simp only [confirmedRun, ih2, create_reservation_true_seq, Option.getD_some]
      cases m with
      | zero => rfl
      | succ k => simp; omega

/-- C5: every confirmed creation is numbered
`{first letter of advertiser, uppercased}-{iso_year}W{iso_week:02d}-{sequence}`
with the sequence drawn from the global counter (1000 when absent) that
advances exactly once per confirmed creation, so `n` successive
confirmations receive `n` distinct consecutive sequence numbers; an
unconfirmed creation and a test export allocate no sequence and carry no
number; advertiser "Muratbey" at ISO week 5 of 2026 with sequence 1007
yields "M-2026W05-1007". -/
theorem reservation_numbering (db : MetaDB) (adv : String) (payload : Payload)
    (yr wk n : Nat) (nowStr : String) :
    ((create_reservation db adv payload true yr wk nowStr).2.reservation_no
      = advLetter adv ++ "-" ++ toString yr ++ "W" ++ pad2 wk ++ "-" ++
          toString (db.reservation_seq.getD 1000)) ∧
    ((confirmedRun adv payload yr wk nowStr n db).1.map (·.reservation_no)
      = (List.range n).map (fun j =>
          advLetter adv ++ "-" ++ toString yr ++ "W" ++ pad2 wk ++ "-" ++
            toString (db.reservation_seq.getD 1000 + j))) ∧
    ((confirmedRun adv payload yr wk nowStr (n + 1) db).2.reservation_seq
      = some (db.reservation_seq.getD 1000 + n + 1)) ∧
    ((List.range n).map (fun j => db.reservation_seq.getD 1000 + j)).Nodup ∧
    ((create_reservation db adv payload false yr wk nowStr).1.reservation_seq
      = db.reservation_seq) ∧
    ((create_reservation db adv payload false yr wk nowStr).2.reservation_no = "") ∧
    (export_test payload nowStr).reservation_no = "" ∧
    (create_reservation ⟨some 1007, []⟩ "Muratbey" {} true 2026 5 "").2.reservation_no
      = "M-2026W05-1007" := by
  refine ⟨create_reservation_true_no db adv payload yr wk nowStr,
    (confirmedRun_numbers adv payload yr wk nowStr n db).1,
    (confirmedRun_numbers adv payload yr wk nowStr (n + 1) db).2,
    ?_, rfl, rfl, rfl, by rfl⟩
  exact List.Nodup.map (fun a b h => by omega) (List.nodup_range n)

/-- Draft reservation (`src/domain/models.py: ReservationDraft`);
`spot_time` is the `(hour, minute)` pair of the `datetime.time`. -/
structure ReservationDraft where
  advertiser_name : String
  plan_date : PDate
  spot_time : Nat × Nat
  channel_name : String := ""
  channel_price_dt : ℚ := 0
  channel_price_odt : ℚ := 0
  agency_name : String := ""
  product_name : String := ""
  plan_title : String := ""
  spot_code : String := ""
  spot_duration_sec : Int := 0
  code_definition : String := ""
  code_defs : List CodeDef := []
  note_text : String := ""
  prepared_by_name : String := ""
  agency_commission_pct : Int := 10
deriving Repr

/-- `src/domain/time_rules.py: validate_day`: succeeds exactly on valid
calendar dates (the modelled domain of `date.toordinal`). -/
def validate_day (plan_date : PDate) : Bool × String :=
  if plan_date.valid then (true, "") else (false, "Geçersiz tarih.")

/-- `ReservationService.sanitize_plan_cells`: on the typed model
(string keys, string values) the tuple-key and `None`-value
normalisation collapses to the identity on the entry list. -/
def sanitize_plan_cells (cells : List (String × String)) : List (String × String) := cells

/-- Code-definition de-duplication in `confirm`: keys upper-cased,
first occurrence wins (`seen_codes` set). -/
def dedupCodeDefs (raw : List CodeDef) : List CodeDef :=
  (raw.foldl
    (fun (acc : List CodeDef × List String) rr =>
      let code := pyUpper (pyStrip rr.code)
      if code = "" then acc
      else if code ∈ acc.2 then acc
      else (acc.1 ++ [{ code := code, desc := pyStrip rr.desc, duration_sec := rr.duration_sec }],
            acc.2 ++ [code]))
    ([], [])).1

/-- Payload assembled by the success path of
`ReservationService.confirm` (`nowStamp` stands for the
`datetime.now()` prepared-by stamp). -/
def confirmPayload (repo : Repo) (nowStamp : String) (draft : ReservationDraft)
    (plan_cells : List (String × String)) : Payload :=
  let adv := pyStrip draft.advertiser_name
  let pt := pyStrip draft.plan_title
  let dt_odt := classify_dt_odt draft.spot_time.1 draft.spot_time.2
  let pb_name := cleanPreparedByName draft.prepared_by_name
  let prepared_by := if pb_name ≠ "" then pb_name ++ " - " ++ nowStamp else nowStamp
  let cells := sanitize_plan_cells plan_cells
  let adet_total := (cells.filter (fun kv => pyStrip kv.2 ≠ "")).length
  let code_defs₀ := dedupCodeDefs draft.code_defs
  let code_defs :=
    if code_defs₀.isEmpty ∧
        (draft.spot_code ≠ "" ∨ draft.code_definition ≠ "" ∨ draft.spot_duration_sec ≠ 0) then
      (let code := pyUpper (pyStrip draft.spot_code)
       if code ≠ "" then
         [{ code := code, desc := pyStrip draft.code_definition,
            duration_sec := draft.spot_duration_sec }]
       else [])
    else code_defs₀
  let used_codes := cells.filterMap (fun kv =>
    let vv := pyStrip kv.2
    if vv = "" then none else some (pyUpper vv))
  let used_codes_set := sortStrings (firstUniq used_codes)
  let lookupDef := fun (c : String) =>
    code_defs.find? (fun d => pyUpper (pyStrip d.code) = pyUpper (pyStrip c))
  let dispTriple : String × String × ℚ :=
    match used_codes_set with
    | [one] =>
      let dd := lookupDef one
      (one, ((dd.map (·.desc)).getD ""), (((dd.map (·.duration_sec)).getD 0 : Int) : ℚ))
    | [] => (pyStrip draft.spot_code, pyStrip draft.code_definition, (draft.spot_duration_sec : ℚ))
    | _ =>
      let total := (used_codes_set.map (fun c => used_codes.count c)).sum
      let disp_dur :=
        if 0 < total then
          pyRound
            ((used_codes_set.map (fun c =>
              ((used_codes.count c : ℚ) *
                ((((lookupDef c).map (·.duration_sec)).getD 0 : Int) : ℚ)))).sum
              / (total : ℚ)) 2
        else 0
      ("ÇOKLU", "", disp_dur)
  { agency_name := pyStrip draft.agency_name
    advertiser_name := adv
    product_name := pyStrip draft.product_name
    plan_title := pt
    spot_code := pyStrip dispTriple.1
    spot_duration_sec := pyTrunc dispTriple.2.2
    code_definition := pyStrip dispTriple.2.1
    code_defs := code_defs
    note_text := pyStrip draft.note_text
    prepared_by := prepared_by
    plan_date := some draft.plan_date
    spot_time := pad2 draft.spot_time.1 ++ ":" ++ pad2 draft.spot_time.2
    dt_odt := dt_odt
    channel_name := pyStrip draft.channel_name
    channel_price_year := draft.plan_date.year
    channel_price_month := draft.plan_date.month
    channel_price_dt := draft.channel_price_dt
    channel_price_odt := draft.channel_price_odt
    access_hour_map := getAccessHourMapForChannel repo draft.channel_name draft.plan_date.year
    plan_cells := cells
    adet_total := adet_total
    agency_commission_pct := draft.agency_commission_pct }

/-- `ReservationService.confirm`: validation order and messages follow
the source; a raised `ValueError` is the `.error` case. -/
def confirm (repo : Repo) (nowStamp : String) (draft : ReservationDraft)
    (plan_cells : List (String × String)) : Except String Payload :=
  if pyStrip draft.plan_title = "" then .error "Plan başlığı zorunlu."
  else if pyStrip draft.advertiser_name = "" then .error "Reklamveren zorunlu."
  else
    let vd := validate_day draft.plan_date
    if vd.1 = false then .error vd.2
    else .ok (confirmPayload repo nowStamp draft plan_cells)

/-- UI confirmation flow: `confirm` followed by
`save_and_export`'s `create_reservation` call; a validation failure
reaches the repository not at all. -/
def confirmAndSave (repo : Repo) (db : MetaDB) (nowStamp : String)
    (draft : ReservationDraft) (plan_cells : List (String × String))
    (isoYear isoWeek : Nat) (nowStr : String) :
    Except String ReservationRecord × MetaDB :=
  match confirm repo nowStamp draft plan_cells with
  | .error e => (.error e, db)
  | .ok p =>
    let step := create_reservation db p.advertiser_name p true isoYear isoWeek nowStr
    (.ok step.2, step.1)

/-- C6: `confirm` succeeds exactly when the stripped advertiser name and
plan title are non-empty and the plan date is a valid calendar date; on
any validation failure the error is one of the three validation
messages and the repository state is untouched (no partial write). -/
theorem confirm_validation (repo : Repo) (db : MetaDB) (nowStamp : String)
    (draft : ReservationDraft) (plan_cells : List (String × String))
    (isoYear isoWeek : Nat) (nowStr : String) :
    ((∃ p, confirm repo nowStamp draft plan_cells = .ok p) ↔
      (pyStrip draft.advertiser_name ≠ "" ∧ pyStrip draft.plan_title ≠ "" ∧
        draft.plan_date.valid)) ∧
    (∀ e, confirm repo nowStamp draft plan_cells = .error e →
      (confirmAndSave repo db nowStamp draft plan_cells isoYear isoWeek nowStr).2 = db) ∧
    (∀ e, confirm repo nowStamp draft plan_cells = .error e →
      (e = "Plan başlığı zorunlu." ∨ e = "Reklamveren zorunlu." ∨ e = "Geçersiz tarih.")) := by
  refine ⟨?_, ?_, ?_⟩
  · by_cases h1 : pyStrip draft.plan_title = ""
    · simp [confirm, h1]
    · by_cases h2 : pyStrip draft.advertiser_name = ""
      · simp [confirm, h1, h2]
      · by_cases h3 : draft.plan_date.valid
        · simp [confirm, validate_day, h1, h2, h3]
        · simp [confirm, validate_day, h1, h2, h3]
  · intro e he
    unfold confirmAndSave
    rw [he]
  · intro e he
    unfold confirm at he
    by_cases h1 : pyStrip draft.plan_title = ""
    · rw [if_pos h1] at he
      exact Or.inl (Except.error.inj he).symm
    · rw [if_neg h1] at he
      by_cases h2 : pyStrip draft.advertiser_name = ""
      · rw [if_pos h2] at he
        exact Or.inr (Or.inl (Except.error.inj he).symm)
      · rw [if_neg h2] at he
        by_cases h3 : draft.plan_date.valid
        · simp [validate_day, h3] at he
        · simp only [validate_day, if_neg h3] at he
          exact Or.inr (Or.inr (Except.error.inj he).symm)

/-- Concrete valid draft used by the C6 witness. -/
def draftValid : ReservationDraft :=
  { advertiser_name := "A", plan_title := "P",
    plan_date := ⟨2026, 1, 5⟩, spot_time := (9, 0) }

/-- Concrete draft with a blank advertiser used by the C6 witness. -/
def draftNoAdv : ReservationDraft :=
  { advertiser_name := " ", plan_title := "P",
    plan_date := ⟨2026, 1, 5⟩, spot_time := (9, 0) }

/-- Concrete counter state used by witnesses. -/
def db1007 : MetaDB := { reservation_seq := some 1007, rows := [] }

/-- C6 witness: the theorem instantiated at a concrete valid draft (the
success case) and a concrete invalid one (blank advertiser). -/
theorem confirm_validation_witness :
    (∃ p, confirm {} "" draftValid [] = .ok p) ∧
    (confirmAndSave {} db1007 "" draftNoAdv [] 2026 5 "").2 = db1007 := by
  constructor
  · exact (confirm_validation {} {} "" draftValid [] 2026 5 "").1.mpr
      ⟨by decide, by decide, by decide⟩
  · exact (confirm_validation {} db1007 "" draftNoAdv [] 2026 5 "").2.1
      "Reklamveren zorunlu." (by rfl)

/-- Cell map of one month: plan-grid key `"row,day"` to code string. -/
abbrev CellMap := List (String × String)

/-- Per-month cell maps of a span reservation. -/
abbrev Mmaps := List ((Nat × Nat) × CellMap)

/-- `ReservationService._norm_name`:
`" ".join(s.strip().lower().split())`. -/
def normName (s : String) : String :=
  String.intercalate " " ((splitWhitespace (pyLower (pyStrip s)).data).map String.mk)

/-- `ReservationService._is_span_payload`. -/
def isSpanPayload (p : Payload) : Bool :=
  p.is_span || p.span_start.isSome || p.span_end.isSome || !p.span_month_matrices.isEmpty

/-- `ReservationService._get_span_month_matrices`: key parsing is
absorbed by the typed payload; values are sanitized and collected into
a dict keyed by `(year, month)`. -/
def getSpanMonthMatrices (p : Payload) : Mmaps :=
  p.span_month_matrices.foldl
    (fun acc kv => alSet acc kv.1 (sanitize_plan_cells kv.2)) []

/-- Parse a `"row,day"` cell key; `none` models the swallowed
`ValueError` (wrong arity or non-integer parts). -/
def parseCellKey (k : String) : Option (Int × Int) :=
  match splitChar ',' k.data with
  | [a, b] =>
    match parseInt? (String.mk a), parseInt? (String.mk b) with
    | some r, some d => some (r, d)
    | _, _ => none
  | _ => none

/-- Sub-matrices of a span record restricted to the months of the
requested range, keeping only months with at least one occupied cell
(the `mmaps`/`has_any` loop of step 1). -/
def selSpanCells (months : List (Nat × Nat)) (p : Payload) : Mmaps :=
  (getSpanMonthMatrices p).foldl
    (fun acc ymc =>
      if ymc.1 ∈ months then
        let fixed := sanitize_plan_cells ymc.2
        if fixed.any (fun kv => pyStrip kv.2 ≠ "") then alSet acc ymc.1 fixed else acc
      else acc)
    []

/-- Step-1 record selection of `get_plan_ozet_range_data`: `none` means
the record is discarded (id not positive, span/date outside the range,
or no occupied cells in the range months); `some` carries the cell
sub-matrices the aggregation will use. -/
def selRecord (rs re_ : PDate) (months : List (Nat × Nat)) (r : ReservationRecord) :
    Option Mmaps :=
  let p := r.payload
  if r.id ≤ 0 then none
  else if isSpanPayload p then
    let s0 := p.span_start.getD rs
    let s1 := p.span_end.getD re_
    if dateLT s1 rs || dateLT re_ s0 then none
    else
      let mmaps := selSpanCells months p
      if mmaps.isEmpty then none else some mmaps
  else
    match p.plan_date with
    | none => none
    | some d0 =>
      if dateLT d0 rs || dateLT re_ d0 then none
      else some [((d0.year, d0.month), sanitize_plan_cells p.plan_cells)]

/-- The `rel_recs`/`cells_by_id_month` loop: kept records paired with
their selected cell sub-matrices, in fetch order. -/
def selectRecords (rs re_ : PDate) (months : List (Nat × Nat))
    (recs : List ReservationRecord) : List (ReservationRecord × Mmaps) :=
  recs.foldl
    (fun acc r =>
      match selRecord rs re_ months r with
      | none => acc
      | some mm => acc ++ [(r, mm)])
    []

/-- The months spanned by the date list, in first-appearance order
(`if not months or months[-1] != ym: months.append(ym)`). -/
def monthsOf (dates : List PDate) : List (Nat × Nat) :=
  dates.foldl
    (fun acc dd =>
      let ym := (dd.year, dd.month)
      if acc.getLast? = some ym then acc else acc ++ [ym])
    []

/-- The stripped, non-blank candidate values of `_pick_single`. -/
def nonBlankVals (values : List String) : List String :=
  (values.map pyStrip).filter (· ≠ "")

/-- `ReservationService._pick_single` (range-rollup header collector):
single distinct non-empty stripped value, else `"ÇOKLU"`, else blank.
Note that it does not treat an existing `"ÇOKLU"` placeholder specially. -/
def pickSingle (values : List String) : String :=
  let vals := nonBlankVals values
  if vals = [] then ""
  else
    let uniq := firstUniq vals
    if uniq.length = 1 then uniq.headD "" else "ÇOKLU"

/-- `_merge_value` of `get_plan_ozet_yearly_data`: adds a stripped value
to the accumulated distinct set, dropping blanks and the `"ÇOKLU"`
placeholder. -/
def mergeValue (acc : List String) (val : String) : List String :=
  let s := pyStrip val
  if s = "" then acc
  else if pyUpper s = "ÇOKLU" then acc
  else if s ∈ acc then acc else acc ++ [s]

/-- Reservation-number candidates collected over the header records
(`getattr(r, "reservation_no") or payload fallback`, stripped, blanks
dropped). -/
def collectResNos (recs : List ReservationRecord) : List String :=
  recs.filterMap (fun r =>
    let rn := pyStrip (if r.reservation_no ≠ "" then r.reservation_no
                       else r.payload.reservation_no)
    if rn ≠ "" then some rn else none)

/-- Reservation-number display of the range rollup:
`sorted(list({r for r in resnos if r.strip()}))`, then one number
as-is, several as a `"ÇOKLU"`-headed multi-line list. -/
def resNoDisplayRange (resnos : List String) : String :=
  let ds := sortStrings (firstUniq (resnos.filter (fun x => pyStrip x ≠ "")))
  match ds with
  | [] => ""
  | [x] => x
  | _ => "ÇOKLU\n" ++ String.intercalate "\n" ds

/-- `ReservationService._sort_reservation_no`: parse
`^[A-Z]-(\d{4})W(\d{2})-(\d+)$` into `(iso_year, iso_week, sequence)`. -/
def parseResNo (s : String) : Option (Nat × Nat × Nat) :=
  match s.data with
  | c0 :: '-' :: a :: b :: c :: d :: 'W' :: e :: f :: '-' :: rest =>
    if c0.isUpper ∧ [a, b, c, d, e, f].all (·.isDigit) ∧ rest ≠ [] ∧
        rest.all (·.isDigit) then
      some (digitsVal [a, b, c, d], digitsVal [e, f], digitsVal rest)
    else none
  | _ => none

/-- Sort key of `_sort_reservation_no`: the parsed
`(year, week, sequence, s)` tuple, or the lexicographic fallback
`(9999, 99, 999999999, s)`. -/
def sortReservationNoKey (no : String) : Nat × Nat × Nat × String :=
  let s := pyStrip no
  match parseResNo s with
  | some (y, w, q) => (y, w, q, s)
  | none => (9999, 99, 999999999, s)

/-- Ordering on the parsed reservation-number keys (Python tuple
comparison, lexicographic). -/
def resNoKeyLE (a b : String) : Bool :=
  let ka := sortReservationNoKey a
  let kb := sortReservationNoKey b
  decide (ka.1 < kb.1 ∨ (ka.1 = kb.1 ∧ (ka.2.1 < kb.2.1 ∨ (ka.2.1 = kb.2.1 ∧
    (ka.2.2.1 < kb.2.2.1 ∨ (ka.2.2.1 = kb.2.2.1 ∧
      pyStrLE ka.2.2.2 kb.2.2.2 = true))))))

/-- Reservation-number display that the spec claims for the range
rollup: same as `resNoDisplayRange` but sorted by the parsed
`(iso_year, iso_week, sequence)` key (this is what the monthly rollup
does; the range rollup does not). -/
def resNoDisplayClaimed (resnos : List String) : String :=
  let ds := (firstUniq (resnos.filter (fun x => pyStrip x ≠ ""))).insertionSort
    (fun a b => resNoKeyLE a b = true)
  match ds with
  | [] => ""
  | [x] => x
  | _ => "ÇOKLU\n" ++ String.intercalate "\n" ds

/-- Row of `get_kod_tanimi_rows` (code, description, length, count and
the later-added distribution share). -/
structure KodRow where
  code : String
  code_desc : String
  length_sn : Int
  count : Nat
  distribution : ℚ := 0
deriving DecidableEq, Repr

/-- `ReservationService._iter_cells`: all non-empty cells of a payload
as `(year, month, row_idx, day, code)` tuples, codes stripped and
upper-cased, malformed keys skipped. -/
def iterCells (p : Payload) : List (Nat × Nat × Int × Int × String) :=
  if isSpanPayload p then
    (getSpanMonthMatrices p).flatMap (fun ymc =>
      ymc.2.filterMap (fun kv =>
        let code := pyUpper (pyStrip kv.2)
        if code = "" then none
        else (parseCellKey kv.1).map (fun rd => (ymc.1.1, ymc.1.2, rd.1, rd.2, code))))
  else
    match p.plan_date with
    | none => []
    | some d =>
      (sanitize_plan_cells p.plan_cells).filterMap (fun kv =>
        let code := pyUpper (pyStrip kv.2)
        if code = "" then none
        else (parseCellKey kv.1).map (fun rd => (d.year, d.month, rd.1, rd.2, code)))

/-- Per-record code map of `get_kod_tanimi_rows`
(code to `(desc, duration)`, dict comprehension so the last duplicate
wins, with the single-field fallback). -/
def kodCodeMap (p : Payload) : List (String × (String × Int)) :=
  let m := p.code_defs.foldl
    (fun acc d =>
      let c := pyUpper (pyStrip d.code)
      if c ≠ "" then alSet acc c (pyStrip d.desc, d.duration_sec) else acc)
    []
  if m.isEmpty then
    (let sc := pyUpper (pyStrip p.spot_code)
     if sc ≠ "" then [(sc, (pyStrip p.code_definition, p.spot_duration_sec))] else [])
  else m

/-- One cell of the kod-tanımı grouping loop: create the group on first
sight, bump its count, then let the current record's description or
duration win. -/
def kodStep (code_map : List (String × (String × Int)))
    (grouped : List (String × KodRow)) (code : String) : List (String × KodRow) :=
  let dd := alGet code_map code
  let g0 := match alGet grouped code with
    | some g => g
    | none =>
      { code := code, code_desc := (dd.map (fun v : String × Int => v.1)).getD "",
        length_sn := (dd.map (fun v : String × Int => v.2)).getD 0, count := 0 }
  let g1 := { g0 with count := g0.count + 1 }
  let g2 := match dd with
    | none => g1
    | some dv =>
      { g1 with code_desc := if dv.1 ≠ "" then dv.1 else g1.code_desc,
                length_sn := dv.2 }
  alSet grouped code g2

/-- `ReservationService.get_kod_tanimi_rows`. -/
def get_kod_tanimi_rows (repo : Repo) (plan_title : String) : List KodRow :=
  let recs := listConfirmedByPlanTitle repo plan_title 50000
  let st := recs.foldl
    (fun (st : List (String × KodRow) × Nat) r =>
      let cm := kodCodeMap r.payload
      (iterCells r.payload).foldl
        (fun st2 cell => (kodStep cm st2.1 cell.2.2.2.2, st2.2 + 1)) st)
    ([], 0)
  let rows := (st.1.map (·.2)).insertionSort (fun a b => pyStrLE a.code b.code = true)
  let total := st.2
  rows.map (fun rr =>
    { rr with distribution := if 0 < total then (rr.count : ℚ) / (total : ℚ) else 0 })

/-- `ReservationService.get_kod_tanimi_len_display`: single positive
code length as a string, several as `"ÇOKLU"`, none as blank. -/
def get_kod_tanimi_len_display (repo : Repo) (plan_title : String) : String :=
  let rows := get_kod_tanimi_rows repo plan_title
  let lens := (firstUniq ((rows.map (·.length_sn)).filter (fun x => 0 < x))).insertionSort
    (· ≤ ·)
  match lens with
  | [] => ""
  | [x] => toString x
  | _ => "ÇOKLU"

/-- Decimal display of a two-decimal rational, matching Python's `str`
on the rounded float (one fractional digit when the second is zero).
Claims never inspect this value; it only keeps the embedding total. -/
def ratToDisplay (q : ℚ) : String :=
  let neg := q < 0
  let aq := if neg then -q else q
  let scaled := (aq * 100).floor.toNat
  let ip := scaled / 100
  let fr := scaled % 100
  let fracStr :=
    if fr % 10 = 0 then toString (fr / 10)
    else if fr < 10 then "0" ++ toString fr
    else toString fr
  (if neg then "-" else "") ++ toString ip ++ "." ++ fracStr

/-- Average display of one access row: blank cells skipped, parse with
comma-to-dot, 2-digit rounded mean, `"NA"` when nothing parses. -/
def accessDisplay (vals : List String) : String :=
  let nums := vals.filterMap (fun v =>
    if pyStrip v = "" then none
    else parseFloat? ⟨v.data.map (fun c => if c = ',' then '.' else c)⟩)
  if nums.isEmpty then "NA"
  else ratToDisplay (pyRound (nums.sum / (nums.length : ℚ)) 2)

/-- The `access_map` loop of the rollups: normalised channel name to
averaged listening-share display. -/
def accessMapOf (repo : Repo) (set_id : Int) : List (String × String) :=
  (repo.accessRows set_id).foldl
    (fun acc row =>
      let ch := normName row.1
      if ch = "" then acc else alSet acc ch (accessDisplay row.2))
    []

/-- Access-set choice of `get_plan_ozet_range_data`: prefer the 2026
set when 2026 is in range, then the last year in range, then the
latest set overall. -/
def accessSetIdForRange (repo : Repo) (years_in_range : List Nat) : Option Int :=
  let a0 : Option Int :=
    if 2026 ∈ years_in_range then repo.accessSetForYear 2026 else none
  let a1 := match a0 with
    | some i => some i
    | none =>
      match years_in_range.getLast? with
      | some y => repo.accessSetForYear y
      | none => none
  match a1 with
  | some i => some i
  | none => repo.latestAccessSet

/-- First contributing record's stripped advertiser name (used for the
per-advertiser price fetch), blank when nothing contributed. -/
def advNameOf (rel : List ReservationRecord) : String :=
  match rel with
  | [] => ""
  | r :: _ => pyStrip r.payload.advertiser_name

/-- The `price_maps` dict: one price table per year in range (falling
back to the normalized start year when no month is in range); absent
years read as the empty table. -/
def priceMapsOf (repo : Repo) (years_in_range : List Nat) (rsYear : Nat)
    (adv_name : String) : Nat → List ((Int × Nat) × (ℚ × ℚ)) :=
  fun yy =>
    if yy ∈ (if years_in_range.isEmpty then [rsYear] else years_in_range) then
      repo.prices yy adv_name
    else []

/-- `ch_by_norm`: normalised channel name to channel row (last wins). -/
def chByNormOf (channels : List Channel) : List (String × Channel) :=
  channels.foldl (fun acc ch => alSet acc (normName ch.name) ch) []

/-- Normalised channel names used by the contributing records, blanks
discarded, distinct and sorted. -/
def usedChannelsOf (rel : List ReservationRecord) : List String :=
  sortStrings ((firstUniq (rel.map (fun r => normName r.payload.channel_name))).filter
    (· ≠ ""))

/-- `display_channels`: every active channel, then every used channel
known to the table that is not already listed. -/
def displayChannelsOf (channels : List Channel) (usedSorted : List String) :
    List Channel :=
  let active := channels.filter (fun ch => ch.is_active = 1)
  usedSorted.foldl
    (fun acc nm =>
      match alGet (chByNormOf channels) nm with
      | some ch => if ch ∈ acc then acc else acc ++ [ch]
      | none => acc)
    active

/-- Per-record code-to-duration map of the aggregation loops
(durations as floats, dict comprehension, single-field fallback). -/
def aggCodeMap (p : Payload) : List (String × ℚ) :=
  let m := p.code_defs.foldl
    (fun acc d =>
      let c := pyUpper (pyStrip d.code)
      if c ≠ "" then alSet acc c ((d.duration_sec : ℚ)) else acc)
    []
  if m.isEmpty then
    (let sc := pyUpper (pyStrip p.spot_code)
     if sc ≠ "" then [(sc, (p.spot_duration_sec : ℚ))] else [])
  else m

/-- One processed cell of the aggregation loop of
`get_plan_ozet_range_data`: its accumulator key, resolved duration and,
when the record's channel is known to the table, the month's unit
price (0 when no price is defined). -/
structure AggItem where
  key : String × String × PDate
  dur : ℚ
  unit? : Option ℚ
deriving DecidableEq, Repr

/-- One cell of the aggregation inner loop: `none` reproduces every
skip condition (blank value, malformed key, invalid date, date outside
the range), `some` carries the accumulator key, the resolved duration
and the month-resolved unit price. -/
def cellItem (dates : List PDate)
    (priceMaps : Nat → List ((Int × Nat) × (ℚ × ℚ))) (chId? : Option Int)
    (codeMap : List (String × ℚ)) (channel_norm : String) (ym : Nat × Nat)
    (kv : String × String) : Option AggItem :=
  if pyStrip kv.2 = "" then none
  else
    match parseCellKey kv.1 with
    | none => none
    | some rd =>
      match mkDate? ym.1 ym.2 rd.2 with
      | none => none
      | some dd =>
        if dd ∈ dates then
          let dt_odt := classifyMins (rowIdxToMins rd.1)
          let cell_code := pyUpper (pyStrip kv.2)
          let dur := (alGet codeMap cell_code).getD 0
          let unit? := chId?.map (fun cid =>
            let pr := (alGet (priceMaps dd.year) (cid, dd.month)).getD (0, 0)
            if dt_odt = "DT" then pr.1 else pr.2)
          some { key := (channel_norm, dt_odt, dd), dur := dur, unit? := unit? }
        else none

/-- All aggregation items contributed by one kept record: the in-range,
parseable, dated, occupied cells (the skip conditions mirror the inner
loop; records with a blank normalised channel contribute nothing). -/
def itemsOfRecord (dates : List PDate)
    (priceMaps : Nat → List ((Int × Nat) × (ℚ × ℚ)))
    (chByNorm : List (String × Channel)) (cellsAssoc : List (Int × Mmaps))
    (r : ReservationRecord) : List AggItem :=
  let p := r.payload
  let channel_norm := normName p.channel_name
  if channel_norm = "" then []
  else
    let chId? := (alGet chByNorm channel_norm).map (·.id)
    let codeMap := aggCodeMap p
    let mmaps := (alGet cellsAssoc r.id).getD []
    mmaps.flatMap (fun ymc =>
      ymc.2.filterMap (cellItem dates priceMaps chId? codeMap channel_norm ymc.1))

/-- The flattened stream of processed cells over all kept records.  The
Python loop updates the three accumulator dicts in one pass; the dicts
are disjoint, so folding each one over this stream is the same
computation. -/
def aggItems (dates : List PDate)
    (priceMaps : Nat → List ((Int × Nat) × (ℚ × ℚ)))
    (chByNorm : List (String × Channel)) (cellsAssoc : List (Int × Mmaps))
    (rel : List ReservationRecord) : List AggItem :=
  rel.flatMap (itemsOfRecord dates priceMaps chByNorm cellsAssoc)

/-- The `counts` dict: `counts[key] = counts.get(key, 0) + 1`. -/
def countsOf (items : List AggItem) : List ((String × String × PDate) × Nat) :=
  items.foldl (fun m it => alSet m it.key ((alGet m it.key).getD 0 + 1)) []

/-- The `seconds` dict: `seconds[key] += duration`. -/
def secondsOf (items : List AggItem) : List ((String × String × PDate) × ℚ) :=
  items.foldl (fun m it => alSet m it.key ((alGet m it.key).getD 0 + it.dur)) []

/-- The `budgets` dict: `budgets[key] += duration * unit_price`, only
touched when the record's channel has a table id. -/
def budgetsOf (items : List AggItem) : List ((String × String × PDate) × ℚ) :=
  items.foldl
    (fun m it =>
      match it.unit? with
      | none => m
      | some u => alSet m it.key ((alGet m it.key).getD 0 + it.dur * u))
    []

/-- Unit-price cell of a rollup row: blank, a single value, or the
`"ÇOKLU"` marker. -/
inductive PriceDisp where
  | blank
  | price (q : ℚ)
  | coklu
deriving DecidableEq, Repr

/-- Positive resolved prices of a row over the months in range, after
Python's `round(p, 6)` (the `prices` list of `_unit_price_display`). -/
def posPricesOf (months : List (Nat × Nat))
    (priceMaps : Nat → List ((Int × Nat) × (ℚ × ℚ))) (chId : Int)
    (dtodt : String) : List ℚ :=
  months.filterMap (fun ym =>
    let pr := (alGet (priceMaps ym.1) (chId, ym.2)).getD (0, 0)
    let p := if dtodt = "DT" then pr.1 else pr.2
    if 0 < p then some (pyRound p 6) else none)

/-- `ReservationService._unit_price_display` (range rollup): blank when
no month resolves a positive price, the value when exactly one distinct
price resolves, the `"ÇOKLU"` marker otherwise. -/
def unitPriceDisplay (months : List (Nat × Nat))
    (priceMaps : Nat → List ((Int × Nat) × (ℚ × ℚ))) (chId : Int)
    (dtodt : String) : PriceDisp :=
  let prices := posPricesOf months priceMaps chId dtodt
  if prices.isEmpty then .blank
  else
    match (firstUniq prices).insertionSort (· ≤ ·) with
    | [] => .blank
    | [q] => .price q
    | _ => .coklu

/-- Output row of the range rollup (blank cells are `none`). -/
structure RangeRow where
  channel : String
  publish_group : String
  dt_odt : String
  dinlenme_orani : String
  days : List (Option Nat)
  month_cols : List (Option ℚ)
  unit_price : PriceDisp
  budget : Option ℚ
deriving DecidableEq, Repr

/-- Header block of the range rollup. -/
structure RangeHeader where
  agency : String := ""
  advertiser : String := ""
  product : String := ""
  plan_title : String := ""
  reservation_no : String := ""
  period : String := ""
  spot_len : String := ""
deriving DecidableEq, Repr

/-- Totals block of the range rollup. -/
structure RangeTotals where
  days : List (Option Nat) := []
  month_cols : List (Option ℚ) := []
  budget : Option ℚ := none
deriving DecidableEq, Repr

/-- Full result of `get_plan_ozet_range_data`. -/
structure RangeResult where
  header : RangeHeader
  start? : Option PDate
  end? : Option PDate
  dates : List PDate
  months : List (Nat × Nat)
  month_headers : List String
  rows : List RangeRow
  totals : RangeTotals
deriving DecidableEq, Repr

/-- The fixed empty result returned by the guard path (header and
totals are empty dicts; `start`/`end` echo the raw arguments). -/
def emptyRangeResult (s e : Option PDate) : RangeResult :=
  { header := {}, start? := s, end? := e, dates := [], months := [],
    month_headers := [], rows := [], totals := {} }

/-- Turkish month names (`ReservationService._MONTHS_TR`). -/
def monthsTR : List String :=
  ["OCAK", "ŞUBAT", "MART", "NİSAN", "MAYIS", "HAZİRAN", "TEMMUZ", "AĞUSTOS",
   "EYLÜL", "EKİM", "KASIM", "ARALIK"]

/-- `_MONTHS_TR[mm - 1]`. -/
def monthNameTR (m : Nat) : String := (monthsTR.get? (m - 1)).getD ""

/-- `dd.mm.yyyy` date display of the header period. -/
def fmtDMY (d : PDate) : String :=
  pad2 d.day ++ "." ++ pad2 d.month ++ "." ++ toString d.year

/-- The channel list in display order (`sorted` by lower-cased name,
stable). -/
def sortChannelsByName (chs : List Channel) : List Channel :=
  chs.insertionSort (fun a b => pyStrLE (pyLower a.name) (pyLower b.name) = true)

/-- One output row for a display channel and daypart: per-day counts,
seconds and budgets read from the accumulators, zeroes shown blank,
month sub-columns grouped over the date list, unit-price display and
total budget. -/
def rowFor (dates : List PDate) (months : List (Nat × Nat))
    (priceMaps : Nat → List ((Int × Nat) × (ℚ × ℚ)))
    (counts : List ((String × String × PDate) × Nat))
    (seconds : List ((String × String × PDate) × ℚ))
    (budgets : List ((String × String × PDate) × ℚ))
    (accessMap : List (String × String)) (ch : Channel) (dtodt : String) :
    RangeRow :=
  let ch_norm := normName ch.name
  let day_vals := dates.map (fun dd => (alGet counts (ch_norm, dtodt, dd)).getD 0)
  let day_secs := dates.map (fun dd => (alGet seconds (ch_norm, dtodt, dd)).getD 0)
  let day_bud := dates.map (fun dd => (alGet budgets (ch_norm, dtodt, dd)).getD 0)
  let month_cols := months.flatMap (fun ym =>
    let pairs := (dates.zip (day_vals.zip day_secs)).filter
      (fun pr => pr.1.year = ym.1 ∧ pr.1.month = ym.2)
    let m_adet := (pairs.map (fun pr => pr.2.1)).sum
    let m_san := (pairs.map (fun pr => pr.2.2)).sum
    [if m_adet = 0 then none else some ((m_adet : ℚ)),
     if m_san = 0 then none else some m_san])
  let total_budget := day_bud.sum
  { channel := ch.name
    publish_group := ""
    dt_odt := dtodt
    dinlenme_orani := (alGet accessMap ch_norm).getD "NA"
    days := day_vals.map (fun v => if v = 0 then none else some v)
    month_cols := month_cols
    unit_price := unitPriceDisplay months priceMaps ch.id dtodt
    budget := if total_budget = 0 then none else some total_budget }

/-- Totals block: per-day and per-month sums over all rows (blank cells
read as zero), blanks re-applied, plus the total budget. -/
def totalsOf (dates : List PDate) (months : List (Nat × Nat))
    (rows : List RangeRow) : RangeTotals :=
  let total_day := rows.foldl
    (fun acc rr => List.zipWith (fun a b => a + b.getD 0) acc rr.days)
    (List.replicate dates.length 0)
  let total_mc := rows.foldl
    (fun acc rr => List.zipWith (fun a b => a + b.getD 0) acc rr.month_cols)
    (List.replicate (2 * months.length) (0 : ℚ))
  let total_budget := rows.foldl (fun acc rr => acc + rr.budget.getD 0) 0
  { days := total_day.map (fun v => if v = 0 then none else some v)
    month_cols := total_mc.map (fun v => if v = 0 then none else some v)
    budget := if total_budget = 0 then none else some total_budget }

/-- The `hdr_recs` fallback: header metadata comes from the
contributing records, or from every fetched record of the plan title
when nothing contributed. -/
def hdrRecsOf (recs rel : List ReservationRecord) : List ReservationRecord :=
  if rel.isEmpty then recs else rel

/-- Agency candidate of a record (`agency_name` with the legacy
`agency` fallback). -/
def agencyOf (r : ReservationRecord) : String :=
  if r.payload.agency_name ≠ "" then r.payload.agency_name else r.payload.agency

/-- Advertiser candidate of a record. -/
def advertiserOf (r : ReservationRecord) : String :=
  if r.payload.advertiser_name ≠ "" then r.payload.advertiser_name
  else r.payload.advertiser

/-- Product candidate of a record. -/
def productOf (r : ReservationRecord) : String :=
  if r.payload.product_name ≠ "" then r.payload.product_name else r.payload.product

/-- Steps 2-7 of `get_plan_ozet_range_data` after fetch and selection:
header collection, access and price lookups, aggregation, rows and
totals.  `recs` is used only for the header fallback. -/
def rangeAssemble (repo : Repo) (pt : String) (rs re_ : PDate)
    (recs : List ReservationRecord) (pairs : List (ReservationRecord × Mmaps)) :
    RangeResult :=
  let dates := dateRange rs re_
  let months := monthsOf dates
  let rel := pairs.map (fun pr => pr.1)
  let cellsAssoc := pairs.foldl (fun acc pr => alSet acc pr.1.id pr.2) []
  let hdr := hdrRecsOf recs rel
  let agency := pickSingle (hdr.map agencyOf)
  let advertiser := pickSingle (hdr.map advertiserOf)
  let product := pickSingle (hdr.map productOf)
  let reservation_no := resNoDisplayRange (collectResNos hdr)
  let spot_len := get_kod_tanimi_len_display repo pt
  let years_in_range := (firstUniq (months.map (fun ym => ym.1))).insertionSort (· ≤ ·)
  let accessMap := match accessSetIdForRange repo years_in_range with
    | none => []
    | some i => accessMapOf repo i
  let adv_name := advNameOf rel
  let priceMaps := priceMapsOf repo years_in_range rs.year adv_name
  let channels := repo.channels
  let chbn := chByNormOf channels
  let display := displayChannelsOf channels (usedChannelsOf rel)
  let items := aggItems dates priceMaps chbn cellsAssoc rel
  let counts := countsOf items
  let seconds := secondsOf items
  let budgets := budgetsOf items
  let month_headers := months.flatMap (fun ym =>
    [monthNameTR ym.2 ++ " Adet", monthNameTR ym.2 ++ " Saniye"])
  let rows := (sortChannelsByName display).flatMap (fun ch =>
    [rowFor dates months priceMaps counts seconds budgets accessMap ch "DT",
     rowFor dates months priceMaps counts seconds budgets accessMap ch "ODT"])
  let totals := totalsOf dates months rows
  { header :=
      { agency := agency, advertiser := advertiser, product := product,
        plan_title := pt, reservation_no := reservation_no,
        period := fmtDMY rs ++ "-" ++ fmtDMY re_, spot_len := spot_len }
    start? := some rs
    end? := some re_
    dates := dates
    months := months
    month_headers := month_headers
    rows := rows
    totals := totals }

/-- Span normalisation of the rollup:
`rs = start if start <= end else end` and its mirror. -/
def normSpan (s e : PDate) : PDate × PDate :=
  if dateLE s e then (s, e) else (e, s)

/-- `ReservationService.get_plan_ozet_range_data`: guard path, span
normalisation, fetch, selection, assembly. -/
def get_plan_ozet_range_data (repo : Repo) (plan_title : String)
    (start? end? : Option PDate) : RangeResult :=
  let pt := pyStrip plan_title
  match start?, end? with
  | some s, some e =>
    if pt = "" then emptyRangeResult start? end?
    else
      let rs := (normSpan s e).1
      let re_ := (normSpan s e).2
      let months := monthsOf (dateRange rs re_)
      let recs := listConfirmedByPlanTitle repo pt 5000
      let pairs := selectRecords rs re_ months recs
      rangeAssemble repo pt rs re_ recs pairs
  | _, _ => emptyRangeResult start? end?

/-- C10: a blank (or whitespace-only) plan title, or a missing start or
end date, makes the range rollup return the fixed empty result (empty
header, dates, months, month headers, rows and totals) without raising
(the embedding is total) and without consulting the persistence
collaborator (the output is the same for every repository state). -/
theorem range_empty_guard (repo repo2 : Repo) (plan_title : String)
    (s? e? : Option PDate)
    (h : pyStrip plan_title = "" ∨ s? = none ∨ e? = none) :
    get_plan_ozet_range_data repo plan_title s? e? = emptyRangeResult s? e? ∧
    (get_plan_ozet_range_data repo plan_title s? e?).header = {} ∧
    (get_plan_ozet_range_data repo plan_title s? e?).dates = [] ∧
    (get_plan_ozet_range_data repo plan_title s? e?).months = [] ∧
    (get_plan_ozet_range_data repo plan_title s? e?).month_headers = [] ∧
    (get_plan_ozet_range_data repo plan_title s? e?).rows = [] ∧
    (get_plan_ozet_range_data repo plan_title s? e?).totals = {} ∧
    get_plan_ozet_range_data repo plan_title s? e?
      = get_plan_ozet_range_data repo2 plan_title s? e? := by
  have main : ∀ rp : Repo, get_plan_ozet_range_data rp plan_title s? e?
      = emptyRangeResult s? e? := by
    intro rp
    cases s? with
    | none => rfl
    | some s =>
      cases e? with
      | none => rfl
      | some e =>
        rcases h with h | h | h
        · simp [get_plan_ozet_range_data, h]
        · cases h
        · cases h
  refine ⟨main repo, ?_, ?_, ?_, ?_, ?_, ?_, ?_⟩ <;>
    rw [main repo] <;> first | rfl | rw [main repo2]

/-- C10 witness: the theorem applied to a whitespace-only title and a
concrete pair of dates, against two distinct repository states. -/
theorem range_empty_guard_witness :
    get_plan_ozet_range_data {} " " (some ⟨2026, 1, 1⟩) (some ⟨2026, 1, 2⟩)
      = emptyRangeResult (some ⟨2026, 1, 1⟩) (some ⟨2026, 1, 2⟩) :=
  (range_empty_guard {} { channels := [⟨1, "TRT FM", 1⟩] } " "
    (some ⟨2026, 1, 1⟩) (some ⟨2026, 1, 2⟩) (Or.inl (by decide))).1

/-- C9 counterexample: with a blank plan title the guard path echoes
the raw `start`/`end` arguments unswapped, so calling the rollup with
an inverted pair is not identical to calling it with the normalized
pair — the claim fails as stated for every plan title. -/
theorem range_swap_counterexample :
    ¬ (get_plan_ozet_range_data {} "" (some ⟨2026, 1, 2⟩) (some ⟨2026, 1, 1⟩)
        = get_plan_ozet_range_data {} "" (some ⟨2026, 1, 1⟩) (some ⟨2026, 1, 2⟩)) := by
  intro h
  have h1 : (get_plan_ozet_range_data {} "" (some ⟨2026, 1, 2⟩)
      (some ⟨2026, 1, 1⟩)).start? = some ⟨2026, 1, 2⟩ := rfl
  rw [h] at h1
  exact absurd (Option.some.inj h1) (by decide)

/-- C9 amended: for every plan title whose stripped value is non-empty,
an inverted date pair (`end < start`) is silently normalized by
swapping — the rollup output is identical to the output for the swapped
pair. -/
theorem range_swap_normalized (repo : Repo) (plan_title : String) (s e : PDate)
    (hpt : pyStrip plan_title ≠ "") (hlt : dateLT e s = true) :
    get_plan_ozet_range_data repo plan_title (some s) (some e)
      = get_plan_ozet_range_data repo plan_title (some e) (some s) := by
  have h1 : dateLE s e = false := dateLE_false_of_dateLT hlt
  have h2 : dateLE e s = true := dateLE_of_dateLT hlt
  simp [get_plan_ozet_range_data, hpt, normSpan, h1, h2]

/-- C9 witness: the amended theorem at a concrete inverted pair. -/
theorem range_swap_normalized_witness :
    get_plan_ozet_range_data {} "P" (some ⟨2026, 1, 2⟩) (some ⟨2026, 1, 1⟩)
      = get_plan_ozet_range_data {} "P" (some ⟨2026, 1, 1⟩) (some ⟨2026, 1, 2⟩) :=
  range_swap_normalized {} "P" ⟨2026, 1, 2⟩ ⟨2026, 1, 1⟩ (by decide) (by decide)

/-- Modelled from the spec: the header collector the claim describes,
with candidate values equal to the `"ÇOKLU"` placeholder excluded from
the distinct-value set before collapsing (the source's `_pick_single`
has no such exclusion; only `_merge_value` of the yearly path does). -/
def pickSingleClaimed (values : List String) : String :=
  let vals := ((values.map pyStrip).filter (· ≠ "")).filter
    (fun x => pyUpper x ≠ "ÇOKLU")
  if vals = [] then ""
  else
    let uniq := firstUniq vals
    if uniq.length = 1 then uniq.headD "" else "ÇOKLU"

/-- Record with a placeholder agency value (C8 counterexample). -/
def recC8a : ReservationRecord :=
  { id := 1, plan_title := "P",
    payload := { agency_name := "ÇOKLU", plan_date := some ⟨2026, 1, 1⟩ } }

/-- Record with an ordinary agency value (C8 counterexample). -/
def recC8b : ReservationRecord :=
  { id := 2, plan_title := "P",
    payload := { agency_name := "X", plan_date := some ⟨2026, 1, 1⟩ } }

/-- Repository for the C8 counterexample. -/
def repoC8 : Repo := { reservations := [recC8a, recC8b] }

/-- C8 counterexample: over contributing records with agency values
`"ÇOKLU"` and `"X"`, the range rollup's collector keeps the placeholder
as an ordinary candidate and shows `"ÇOKLU"` (two distinct values),
while the claimed exclusion-before-collapse would show `"X"`. -/
theorem header_merge_counterexample :
    (get_plan_ozet_range_data repoC8 "P" (some ⟨2026, 1, 1⟩)
        (some ⟨2026, 1, 2⟩)).header.agency = "ÇOKLU" ∧
    pickSingleClaimed ["ÇOKLU", "X"] = "X" ∧
    ¬ (("ÇOKLU" : String) = "X") := by
  refine ⟨by rfl, by rfl, by decide⟩

/-- C8 amended: the range-rollup collector `_pick_single` shows a
single distinct non-empty stripped value unchanged, collapses more than
one distinct value to `"ÇOKLU"`, and shows blank when no non-empty
value exists, but does not exclude existing `"ÇOKLU"` placeholders
(they take part as ordinary values); the placeholder exclusion exists
only in the yearly merge `_merge_value`. -/
theorem header_merge_policy (values acc : List String) (v : String) :
    (nonBlankVals values = [] → pickSingle values = "") ∧
    (∀ x, firstUniq (nonBlankVals values) = [x] → pickSingle values = x) ∧
    (∀ x y l, firstUniq (nonBlankVals values) = x :: y :: l →
      pickSingle values = "ÇOKLU") ∧
    pickSingle ["ÇOKLU"] = "ÇOKLU" ∧
    mergeValue acc "ÇOKLU" = acc ∧
    (pyStrip v ≠ "" → pyUpper (pyStrip v) ≠ "ÇOKLU" → pyStrip v ∉ acc →
      mergeValue acc v = acc ++ [pyStrip v]) := by
  refine ⟨?_, ?_, ?_, by rfl, ?_, ?_⟩
  · intro h
    unfold pickSingle
    rw [h]
    rfl
  · intro x h
    have hne : nonBlankVals values ≠ [] := by
      intro hv
      rw [hv] at h
      exact absurd h (by simp [firstUniq])
    unfold pickSingle
    rw [if_neg hne, h]
    rfl
  · intro x y l h
    have hne : nonBlankVals values ≠ [] := by
      intro hv
      rw [hv] at h
      exact absurd h (by simp [firstUniq])
    unfold pickSingle
    rw [if_neg hne, h]
    simp
  · show mergeValue acc "ÇOKLU" = acc
    unfold mergeValue
    rw [if_neg (by decide), if_pos (by decide)]
  · intro h1 h2 h3
    simp [mergeValue, h1, h2, h3]

/-- C8 witness: the amended theorem applied at concrete inputs — the
placeholder survives `_pick_single` and is dropped by `_merge_value`. -/
theorem header_merge_policy_witness :
    pickSingle ["ÇOKLU"] = "ÇOKLU" ∧ mergeValue ["A"] "ÇOKLU" = ["A"] :=
  ⟨(header_merge_policy [] [] "").2.2.2.1,
   (header_merge_policy [] ["A"] "").2.2.2.2.1⟩

theorem charListLT_irrefl (a : List Char) : charListLT a a = false := by
  induction a with
  | nil => rfl
  | cons c cs ih => simp [charListLT, lt_irrefl, ih]

theorem charListLT_asymm : ∀ {a b : List Char},
    charListLT a b = true → charListLT b a = false := by
  intro a
  induction a with
  | nil =>
    intro b h
    cases b with
    | nil => simp [charListLT] at h
    | cons y ys => simp [charListLT]
  | cons x xs ih =>
    intro b h
    cases b with
    | nil => simp [charListLT] at h
    | cons y ys =>
      simp only [charListLT] at h ⊢
      by_cases h1 : x < y
      · simp [h1, lt_asymm h1]
      · by_cases h2 : y < x
        · simp [h1, h2] at h
        · simp only [h1, h2, if_false] at h ⊢
          simpa using ih (by simpa using h)

theorem charListLT_trans : ∀ {a b c : List Char},
    charListLT a b = true → charListLT b c = true → charListLT a c = true := by
  intro a
  induction a with
  | nil =>
    intro b c hab hbc
    cases b with
    | nil => simp [charListLT] at hab
    | cons y ys =>
      cases c with
      | nil => simp [charListLT] at hbc
      | cons z zs => simp [charListLT]
  | cons x xs ih =>
    intro b c hab hbc
    cases b with
    | nil => simp [charListLT] at hab
    | cons y ys =>
      cases c with
      | nil => simp [charListLT] at hbc
      | cons z zs =>
        simp only [charListLT] at hab hbc ⊢
        by_cases hxy : x < y
        · by_cases hyz : y < z
          · simp [lt_trans hxy hyz]
          · by_cases hzy : z < y
            · simp [hyz, hzy] at hbc
            · have hyzeq : y = z := le_antisymm (not_lt.mp hzy) (not_lt.mp hyz)
              simp [hyzeq ▸ hxy]
        · by_cases hyx : y < x
          · simp [hxy, hyx] at hab
          · have hxyeq : x = y := le_antisymm (not_lt.mp hyx) (not_lt.mp hxy)
            subst hxyeq
            by_cases hyz : x < z
            · simp [hyz]
            · by_cases hzy : z < x
              · simp [hyz, hzy] at hbc
              · rw [if_neg hxy, if_neg hxy] at hab
                rw [if_neg hyz, if_neg hzy] at hbc ⊢
                exact ih hab hbc

theorem charListLT_conn : ∀ {a b : List Char},
    charListLT a b = false → charListLT b a = false → a = b := by
  intro a
  induction a with
  | nil =>
    intro b hab _
    cases b with
    | nil => rfl
    | cons y ys => simp [charListLT] at hab
  | cons x xs ih =>
    intro b hab hba
    cases b with
    | nil => simp [charListLT] at hba
    | cons y ys =>
      simp only [charListLT] at hab hba
      by_cases hxy : x < y
      · simp [hxy] at hab
      · by_cases hyx : y < x
        · simp [hxy, hyx] at hba
        · have hxyeq : x = y := le_antisymm (not_lt.mp hyx) (not_lt.mp hxy)
          subst hxyeq
          simp only [lt_irrefl, if_false] at hab hba
          rw [ih (by simpa using hab) (by simpa using hba)]

instance : IsTotal String (fun a b => pyStrLE a b = true) := by
  constructor
  intro a b
  by_cases h : charListLT b.data a.data = true
  · right
    simp [pyStrLE, charListLT_asymm h]
  · left
    simp only [pyStrLE, Bool.not_eq_true'] at h ⊢
    simp [h]

instance : IsTrans String (fun a b => pyStrLE a b = true) := by
  constructor
  intro a b c hab hbc
  simp only [pyStrLE, Bool.not_eq_true, Bool.not_eq_true'] at hab hbc ⊢
  by_cases hca : charListLT c.data a.data = true
  · by_cases hcb : charListLT c.data b.data = true
    · rw [hcb] at hbc
      cases hbc
    · have hbc0 : charListLT c.data b.data = false := by
        simpa using hcb
      by_cases hba : charListLT b.data a.data = true
      · rw [hba] at hab
        cases hab
      · have hba0 : charListLT b.data a.data = false := by simpa using hba
        -- from c !< b and b !< a conclude about c < a
        by_cases hbcLT : charListLT b.data c.data = true
        · -- b < c and c < a gives b < a, contradiction
          have := charListLT_trans hbcLT hca
          rw [this] at hba0
          cases hba0
        · have hbceq : b.data = c.data :=
            charListLT_conn (by simpa using hbcLT) hbc0
          rw [← hbceq] at hca
          rw [hca] at hba0
          cases hba0
  · simpa using hca

/-- Record with an older-week reservation number (C7 counterexample). -/
def recC7a : ReservationRecord :=
  { id := 1, reservation_no := "M-2025W10-1005", plan_title := "P",
    payload := { plan_date := some ⟨2026, 1, 1⟩ } }

/-- Record with a newer-week reservation number (C7 counterexample). -/
def recC7b : ReservationRecord :=
  { id := 2, reservation_no := "A-2026W01-1001", plan_title := "P",
    payload := { plan_date := some ⟨2026, 1, 1⟩ } }

/-- Repository for the C7 counterexample. -/
def repoC7 : Repo := { reservations := [recC7a, recC7b] }

/-- C7 counterexample: the range-rollup header sorts the contributing
reservation numbers plainly (lexicographically), so `"A-2026W01-1001"`
(ISO week 1 of 2026) precedes `"M-2025W10-1005"` (ISO week 10 of 2025),
while the claimed parsed `(iso_year, iso_week, sequence)` key orders
them the other way round. -/
theorem resno_sort_counterexample :
    (get_plan_ozet_range_data repoC7 "P" (some ⟨2026, 1, 1⟩)
        (some ⟨2026, 1, 2⟩)).header.reservation_no
      = "ÇOKLU\nA-2026W01-1001\nM-2025W10-1005" ∧
    resNoDisplayClaimed ["M-2025W10-1005", "A-2026W01-1001"]
      = "ÇOKLU\nM-2025W10-1005\nA-2026W01-1001" ∧
    ¬ (("ÇOKLU\nA-2026W01-1001\nM-2025W10-1005" : String)
        = "ÇOKLU\nM-2025W10-1005\nA-2026W01-1001") :=
  ⟨by rfl, by rfl, by decide⟩

/-- C7 amended: in the range-rollup header the contributing reservation
numbers are de-duplicated and sorted lexicographically (plain string
order — not by the parsed `(iso_year, iso_week, sequence)` key, which
only the monthly rollup uses), and when more than one distinct number
remains they are joined into a multi-line list headed by the `"ÇOKLU"`
marker, a single number being shown as-is. -/
theorem resno_display_range_spec (repo : Repo) (pt : String) (s e : PDate)
    (hpt : pt ≠ "") (hps : pyStrip pt = pt) :
    ∃ ds : List String,
      List.Sorted (fun a b => pyStrLE a b = true) ds ∧
      ds.Perm (firstUniq ((collectResNos (hdrRecsOf
          (listConfirmedByPlanTitle repo pt 5000)
          ((selectRecords (normSpan s e).1 (normSpan s e).2
              (monthsOf (dateRange (normSpan s e).1 (normSpan s e).2))
              (listConfirmedByPlanTitle repo pt 5000)).map (fun pr => pr.1)))).filter
        (fun x => pyStrip x ≠ ""))) ∧
      (get_plan_ozet_range_data repo pt (some s) (some e)).header.reservation_no
        = (match ds with
           | [] => ""
           | [x] => x
           | _ => "ÇOKLU\n" ++ String.intercalate "\n" ds) := by
  refine ⟨sortStrings (firstUniq ((collectResNos (hdrRecsOf
      (listConfirmedByPlanTitle repo pt 5000)
      ((selectRecords (normSpan s e).1 (normSpan s e).2
          (monthsOf (dateRange (normSpan s e).1 (normSpan s e).2))
          (listConfirmedByPlanTitle repo pt 5000)).map (fun pr => pr.1)))).filter
    (fun x => pyStrip x ≠ ""))), ?_, ?_, ?_⟩
  · exact List.sorted_insertionSort _ _
  · exact List.perm_insertionSort _ _
  · simp only [get_plan_ozet_range_data, hps, if_neg hpt]
    rfl

/-- C7 witness: the amended theorem applied at the concrete repository
of two confirmed reservations and a concrete January range. -/
theorem resno_display_range_spec_witness :
    ∃ ds : List String,
      List.Sorted (fun a b => pyStrLE a b = true) ds ∧
      ds.Perm (firstUniq ((collectResNos (hdrRecsOf
          (listConfirmedByPlanTitle repoC7 "P" 5000)
          ((selectRecords (normSpan ⟨2026, 1, 1⟩ ⟨2026, 1, 2⟩).1
              (normSpan ⟨2026, 1, 1⟩ ⟨2026, 1, 2⟩).2
              (monthsOf (dateRange (normSpan ⟨2026, 1, 1⟩ ⟨2026, 1, 2⟩).1
                (normSpan ⟨2026, 1, 1⟩ ⟨2026, 1, 2⟩).2))
              (listConfirmedByPlanTitle repoC7 "P" 5000)).map (fun pr => pr.1)))).filter
        (fun x => pyStrip x ≠ ""))) ∧
      (get_plan_ozet_range_data repoC7 "P" (some ⟨2026, 1, 1⟩)
          (some ⟨2026, 1, 2⟩)).header.reservation_no
        = (match ds with
           | [] => ""
           | [x] => x
           | _ => "ÇOKLU\n" ++ String.intercalate "\n" ds) :=
  resno_display_range_spec repoC7 "P" ⟨2026, 1, 1⟩ ⟨2026, 1, 2⟩ (by decide) (by rfl)

theorem mem_firstUniq_ins {α : Type} [DecidableEq α] (acc : List α) (x a : α) :
    a ∈ (if x ∈ acc then acc else acc ++ [x]) ↔ a ∈ acc ∨ a = x := by
  by_cases h : x ∈ acc
  · simp only [if_pos h]
    constructor
    · exact Or.inl
    · rintro (ha | rfl)
      · exact ha
      · exact h
  · simp [if_neg h]

theorem mem_firstUniq_aux {α : Type} [DecidableEq α] :
    ∀ (l acc : List α) (a : α),
      a ∈ l.foldl (fun acc v => if v ∈ acc then acc else acc ++ [v]) acc ↔
        a ∈ acc ∨ a ∈ l := by
  intro l
  induction l with
  | nil => simp
  | cons x rest ih =>
    intro acc a
    simp only [List.foldl_cons, ih, mem_firstUniq_ins, List.mem_cons]
    tauto

theorem mem_firstUniq {α : Type} [DecidableEq α] (l : List α) (a : α) :
    a ∈ firstUniq l ↔ a ∈ l := by
  unfold firstUniq
  rw [mem_firstUniq_aux]
  simp

theorem firstUniq_allEq {α : Type} [DecidableEq α] (l : List α) (q : α)
    (hne : l ≠ []) (hall : ∀ p ∈ l, p = q) : firstUniq l = [q] := by
  have aux : ∀ (rest : List α), (∀ p ∈ rest, p = q) →
      rest.foldl (fun acc v => if v ∈ acc then acc else acc ++ [v]) [q] = [q] := by
    intro rest
    induction rest with
    | nil => intro _; rfl
    | cons x xs ih =>
      intro hx
      have hxq : x = q := hx x (List.mem_cons_self x xs)
      subst hxq
      simp only [List.foldl_cons, List.mem_singleton, if_pos rfl]
      exact ih (fun p hp => hx p (List.mem_cons_of_mem x hp))
  cases l with
  | nil => exact absurd rfl hne
  | cons x xs =>
    have hxq : x = q := hall x (List.mem_cons_self x xs)
    subst hxq
    unfold firstUniq
    simp only [List.foldl_cons, List.not_mem_nil, if_neg (List.not_mem_nil x),
      List.nil_append]
    exact aux xs (fun p hp => hall p (List.mem_cons_of_mem x hp))

/-- C3: unit-price resolution of the range rollup degrades without
raising (the embedding is total): a row shows blank when no month in
range resolves a positive price, the single resolved value when it is
the same across all resolving months, and the `"ÇOKLU"` marker when two
months resolve different prices; and a processed cell whose month has
no price (resolved unit 0) leaves every budget entry unchanged while
its count and seconds still accumulate. -/
theorem unit_price_resolution (months : List (Nat × Nat))
    (priceMaps : Nat → List ((Int × Nat) × (ℚ × ℚ))) (chId : Int)
    (dtodt : String) (items : List AggItem) (it : AggItem) :
    (posPricesOf months priceMaps chId dtodt = [] →
      unitPriceDisplay months priceMaps chId dtodt = .blank) ∧
    (∀ q, posPricesOf months priceMaps chId dtodt ≠ [] →
      (∀ p ∈ posPricesOf months priceMaps chId dtodt, p = q) →
      unitPriceDisplay months priceMaps chId dtodt = .price q) ∧
    (∀ p q, p ∈ posPricesOf months priceMaps chId dtodt →
      q ∈ posPricesOf months priceMaps chId dtodt → p ≠ q →
      unitPriceDisplay months priceMaps chId dtodt = .coklu) ∧
    (it.unit? = some 0 →
      (∀ k, (alGet (budgetsOf (items ++ [it])) k).getD 0
          = (alGet (budgetsOf items) k).getD 0) ∧
      (alGet (countsOf (items ++ [it])) it.key).getD 0
        = (alGet (countsOf items) it.key).getD 0 + 1 ∧
      (alGet (secondsOf (items ++ [it])) it.key).getD 0
        = (alGet (secondsOf items) it.key).getD 0 + it.dur) := by
  have hempty : ∀ (P : List ℚ), P ≠ [] → P.isEmpty = false := by
    intro P hP
    cases P with
    | nil => exact absurd rfl hP
    | cons a l => rfl
  refine ⟨?_, ?_, ?_, ?_⟩
  · intro h
    unfold unitPriceDisplay
    rw [h]
    rfl
  · intro q hne hall
    unfold unitPriceDisplay
    dsimp only
    rw [hempty _ hne, firstUniq_allEq _ q hne hall]
    rfl
  · intro p q hp hq hpq
    have hne : posPricesOf months priceMaps chId dtodt ≠ [] := by
      intro h
      rw [h] at hp
      exact absurd hp (List.not_mem_nil p)
    have hpu : p ∈ (firstUniq (posPricesOf months priceMaps chId dtodt)).insertionSort
        (· ≤ ·) :=
      (List.Perm.mem_iff (List.perm_insertionSort _ _)).2 ((mem_firstUniq _ _).2 hp)
    have hqu : q ∈ (firstUniq (posPricesOf months priceMaps chId dtodt)).insertionSort
        (· ≤ ·) :=
      (List.Perm.mem_iff (List.perm_insertionSort _ _)).2 ((mem_firstUniq _ _).2 hq)
    unfold unitPriceDisplay
    dsimp only
    rw [hempty _ hne]
    cases hcase : (firstUniq (posPricesOf months priceMaps chId dtodt)).insertionSort
        (· ≤ ·) with
    | nil =>
      rw [hcase] at hpu
      exact absurd hpu (List.not_mem_nil p)
    | cons x tail =>
      cases tail with
      | nil =>
        rw [hcase] at hpu hqu
        simp only [List.mem_singleton] at hpu hqu
        exact absurd (hpu.trans hqu.symm) hpq
      | cons y l => rfl
  · intro hu
    refine ⟨?_, ?_, ?_⟩
    · intro k
      unfold budgetsOf
      rw [List.foldl_append]
      simp only [List.foldl_cons, List.foldl_nil, hu]
      by_cases hk : it.key = k
      · subst hk
        rw [alGet_alSet_self]
        simp
      · rw [alGet_alSet_other _ _ _ _ hk]
    · unfold countsOf
      rw [List.foldl_append]
      simp only [List.foldl_cons, List.foldl_nil]
      rw [alGet_alSet_self]
      rfl
    · unfold secondsOf
      rw [List.foldl_append]
      simp only [List.foldl_cons, List.foldl_nil]
      rw [alGet_alSet_self]
      rfl

/-- Concrete processed cell in a month with no price (C3 witness). -/
def itC3 : AggItem :=
  { key := ("trt fm", "DT", ⟨2026, 3, 5⟩), dur := 30, unit? := some 0 }

/-- C3 witness: the theorem applied at a price table with no entry for
March 2026 — blank unit price, untouched budget, accumulated count. -/
theorem unit_price_resolution_witness :
    unitPriceDisplay [(2026, 3)] (fun _ => []) 1 "DT" = .blank ∧
    (alGet (budgetsOf ([] ++ [itC3])) itC3.key).getD 0
      = (alGet (budgetsOf []) itC3.key).getD 0 ∧
    (alGet (countsOf ([] ++ [itC3])) itC3.key).getD 0
      = (alGet (countsOf []) itC3.key).getD 0 + 1 :=
  ⟨(unit_price_resolution [(2026, 3)] (fun _ => []) 1 "DT" [] itC3).1 (by rfl),
   ((unit_price_resolution [(2026, 3)] (fun _ => []) 1 "DT" [] itC3).2.2.2
     (by rfl)).1 itC3.key,
   ((unit_price_resolution [(2026, 3)] (fun _ => []) 1 "DT" [] itC3).2.2.2
     (by rfl)).2.1⟩

/-- Intersection test of step 1 of the rollup: a span record intersects
unless its (defaulted) span lies strictly outside the normalized range;
a single-date record intersects when its parseable plan date lies
inside.  A record with an unparseable plan date never intersects. -/
def recordIntersects (rs re_ : PDate) (r : ReservationRecord) : Bool :=
  let p := r.payload
  if isSpanPayload p then
    !(dateLT (p.span_end.getD re_) rs || dateLT re_ (p.span_start.getD rs))
  else
    match p.plan_date with
    | none => false
    | some d0 => !(dateLT d0 rs || dateLT re_ d0)

theorem selRecord_none_of_not_intersects (rs re_ : PDate)
    (months : List (Nat × Nat)) (r : ReservationRecord)
    (h : recordIntersects rs re_ r = false) :
    selRecord rs re_ months r = none := by
  unfold recordIntersects at h
  unfold selRecord
  by_cases hid : r.id ≤ 0
  · simp [hid]
  · rw [if_neg hid]
    by_cases hs : isSpanPayload r.payload = true
    · rw [if_pos hs]
      rw [if_pos hs] at h
      have hcond : (dateLT (r.payload.span_end.getD re_) rs ||
          dateLT re_ (r.payload.span_start.getD rs)) = true := by
        cases hb : (dateLT (r.payload.span_end.getD re_) rs ||
            dateLT re_ (r.payload.span_start.getD rs)) with
        | true => rfl
        | false =>
          rw [hb] at h
          exact absurd h (by decide)
      simp [hcond]
    · rw [if_neg hs]
      rw [if_neg hs] at h
      cases hpd : r.payload.plan_date with
      | none => rfl
      | some d0 =>
        rw [hpd] at h
        dsimp only at h
        have hcond : (dateLT d0 rs || dateLT re_ d0) = true := by
          cases hb : (dateLT d0 rs || dateLT re_ d0) with
          | true => rfl
          | false =>
            rw [hb] at h
            exact absurd h (by decide)
        simp [hcond]

theorem selectRecords_skip (rs re_ : PDate) (months : List (Nat × Nat))
    (A B : List ReservationRecord) (r : ReservationRecord)
    (h : selRecord rs re_ months r = none) :
    selectRecords rs re_ months (A ++ r :: B)
      = selectRecords rs re_ months (A ++ B) := by
  unfold selectRecords
  rw [List.foldl_append, List.foldl_append, List.foldl_cons]
  simp only [h]

/-- Non-intersecting record with header metadata (C4 counterexample). -/
def recC4 : ReservationRecord :=
  { id := 1, plan_title := "P",
    payload := { agency_name := "ACME", plan_date := some ⟨2026, 1, 5⟩ } }

/-- Repository holding only the non-intersecting record. -/
def repoC4 : Repo := { reservations := [recC4] }

/-- The same repository with the record removed. -/
def repoC4none : Repo := { reservations := [] }

/-- C4 counterexample: a confirmed reservation of the plan title whose
date (2026-01-05) does not intersect the requested range (February
2026) still contributes its agency to the rollup header, because when
no record intersects, the header falls back to every fetched record of
the plan title; removing the record changes the output, so it does not
"contribute nothing". -/
theorem discard_counterexample :
    recordIntersects (normSpan ⟨2026, 2, 1⟩ ⟨2026, 2, 3⟩).1
        (normSpan ⟨2026, 2, 1⟩ ⟨2026, 2, 3⟩).2 recC4 = false ∧
    (get_plan_ozet_range_data repoC4 "P" (some ⟨2026, 2, 1⟩)
        (some ⟨2026, 2, 3⟩)).header.agency = "ACME" ∧
    (get_plan_ozet_range_data repoC4none "P" (some ⟨2026, 2, 1⟩)
        (some ⟨2026, 2, 3⟩)).header.agency = "" :=
  ⟨by rfl, by rfl, by rfl⟩

/-- C4 amended: a confirmed reservation of the plan title whose date or
span does not intersect the requested range contributes nothing to the
rollup — rows, totals, column structure and the collected header fields
(agency, advertiser, product, reservation numbers) are unchanged when
the record is removed — provided at least one fetched record still
contributes cells in range; when none does, the header falls back to
all fetched records of the plan title (see the counterexample), and the
spot-length header field always draws on all records. -/
theorem discard_nonintersecting (repo : Repo) (pre post : List ReservationRecord)
    (r : ReservationRecord) (plan_title : String) (s e : PDate)
    (hpt : plan_title ≠ "")
    (hps : pyStrip plan_title = plan_title)
    (hni : recordIntersects (normSpan s e).1 (normSpan s e).2 r = false)
    (hcnt : ((pre ++ r :: post).filter
        (fun x => x.plan_title = plan_title ∧ x.is_confirmed = 1)).length ≤ 5000)
    (hrel : selectRecords (normSpan s e).1 (normSpan s e).2
        (monthsOf (dateRange (normSpan s e).1 (normSpan s e).2))
        (listConfirmedByPlanTitle { repo with reservations := pre ++ post }
          plan_title 5000) ≠ []) :
    (get_plan_ozet_range_data { repo with reservations := pre ++ r :: post }
        plan_title (some s) (some e)).rows
      = (get_plan_ozet_range_data { repo with reservations := pre ++ post }
        plan_title (some s) (some e)).rows ∧
    (get_plan_ozet_range_data { repo with reservations := pre ++ r :: post }
        plan_title (some s) (some e)).totals
      = (get_plan_ozet_range_data { repo with reservations := pre ++ post }
        plan_title (some s) (some e)).totals ∧
    (get_plan_ozet_range_data { repo with reservations := pre ++ r :: post }
        plan_title (some s) (some e)).dates
      = (get_plan_ozet_range_data { repo with reservations := pre ++ post }
        plan_title (some s) (some e)).dates ∧
    (get_plan_ozet_range_data { repo with reservations := pre ++ r :: post }
        plan_title (some s) (some e)).months
      = (get_plan_ozet_range_data { repo with reservations := pre ++ post }
        plan_title (some s) (some e)).months ∧
    (get_plan_ozet_range_data { repo with reservations := pre ++ r :: post }
        plan_title (some s) (some e)).month_headers
      = (get_plan_ozet_range_data { repo with reservations := pre ++ post }
        plan_title (some s) (some e)).month_headers ∧
    (get_plan_ozet_range_data { repo with reservations := pre ++ r :: post }
        plan_title (some s) (some e)).header.agency
      = (get_plan_ozet_range_data { repo with reservations := pre ++ post }
        plan_title (some s) (some e)).header.agency ∧
    (get_plan_ozet_range_data { repo with reservations := pre ++ r :: post }
        plan_title (some s) (some e)).header.advertiser
      = (get_plan_ozet_range_data { repo with reservations := pre ++ post }
        plan_title (some s) (some e)).header.advertiser ∧
    (get_plan_ozet_range_data { repo with reservations := pre ++ r :: post }
        plan_title (some s) (some e)).header.product
      = (get_plan_ozet_range_data { repo with reservations := pre ++ post }
        plan_title (some s) (some e)).header.product ∧
    (get_plan_ozet_range_data { repo with reservations := pre ++ r :: post }
        plan_title (some s) (some e)).header.reservation_no
      = (get_plan_ozet_range_data { repo with reservations := pre ++ post }
        plan_title (some s) (some e)).header.reservation_no ∧
    (get_plan_ozet_range_data { repo with reservations := pre ++ r :: post }
        plan_title (some s) (some e)).header.plan_title
      = (get_plan_ozet_range_data { repo with reservations := pre ++ post }
        plan_title (some s) (some e)).header.plan_title ∧
    (get_plan_ozet_range_data { repo with reservations := pre ++ r :: post }
        plan_title (some s) (some e)).header.period
      = (get_plan_ozet_range_data { repo with reservations := pre ++ post }
        plan_title (some s) (some e)).header.period := by
  have hsel : selectRecords (normSpan s e).1 (normSpan s e).2
      (monthsOf (dateRange (normSpan s e).1 (normSpan s e).2))
      (listConfirmedByPlanTitle { repo with reservations := pre ++ r :: post }
        plan_title 5000)
    = selectRecords (normSpan s e).1 (normSpan s e).2
      (monthsOf (dateRange (normSpan s e).1 (normSpan s e).2))
      (listConfirmedByPlanTitle { repo with reservations := pre ++ post }
        plan_title 5000) := by
    by_cases hr : (r.plan_title = plan_title ∧ r.is_confirmed = 1)
    · have hLW : listConfirmedByPlanTitle
          { repo with reservations := pre ++ r :: post } plan_title 5000
          = (pre.filter (fun x => x.plan_title = plan_title ∧ x.is_confirmed = 1)
              ++ r :: post.filter
                (fun x => x.plan_title = plan_title ∧ x.is_confirmed = 1)) := by
        unfold listConfirmedByPlanTitle
        dsimp only
        rw [hps]
        rw [List.filter_append, List.filter_cons, if_pos (by simpa using hr)] at hcnt ⊢
        exact List.take_of_length_le hcnt
      have hcntO : ((pre ++ post).filter
          (fun x => x.plan_title = plan_title ∧ x.is_confirmed = 1)).length ≤ 5000 := by
        rw [List.filter_append, List.filter_cons, if_pos (by simpa using hr)] at hcnt
        rw [List.filter_append]
        simp only [List.length_append, List.length_cons] at hcnt ⊢
        omega
      have hLO : listConfirmedByPlanTitle
          { repo with reservations := pre ++ post } plan_title 5000
          = (pre.filter (fun x => x.plan_title = plan_title ∧ x.is_confirmed = 1)
              ++ post.filter
                (fun x => x.plan_title = plan_title ∧ x.is_confirmed = 1)) := by
        unfold listConfirmedByPlanTitle
        dsimp only
        rw [hps]
        rw [List.filter_append] at hcntO ⊢
        exact List.take_of_length_le hcntO
      rw [hLW, hLO]
      exact selectRecords_skip _ _ _ _ _ _
        (selRecord_none_of_not_intersects _ _ _ _ hni)
    · have hfeq : (pre ++ r :: post).filter
          (fun x => x.plan_title = plan_title ∧ x.is_confirmed = 1)
          = (pre ++ post).filter
            (fun x => x.plan_title = plan_title ∧ x.is_confirmed = 1) := by
        rw [List.filter_append, List.filter_append, List.filter_cons,
          if_neg (by simpa using hr)]
      have hLeq : listConfirmedByPlanTitle
          { repo with reservations := pre ++ r :: post } plan_title 5000
          = listConfirmedByPlanTitle
            { repo with reservations := pre ++ post } plan_title 5000 := by
        unfold listConfirmedByPlanTitle
        dsimp only
        rw [hps, hfeq]
      rw [hLeq]
  have hne1 : ((selectRecords (normSpan s e).1 (normSpan s e).2
      (monthsOf (dateRange (normSpan s e).1 (normSpan s e).2))
      (listConfirmedByPlanTitle { repo with reservations := pre ++ post }
        plan_title 5000)).map (fun pr => pr.1)).isEmpty = false := by
    cases hc : selectRecords (normSpan s e).1 (normSpan s e).2
        (monthsOf (dateRange (normSpan s e).1 (normSpan s e).2))
        (listConfirmedByPlanTitle { repo with reservations := pre ++ post }
          plan_title 5000) with
    | nil => exact absurd hc hrel
    | cons a l => rfl
  refine ⟨?_, ?_, ?_, ?_, ?_, ?_, ?_, ?_, ?_, ?_, ?_⟩ <;>
    · unfold get_plan_ozet_range_data
      dsimp only
      rw [hps]
      simp only [if_neg hpt]
      rw [hsel]
      all_goals first
        | rfl
        | (unfold rangeAssemble hdrRecsOf
           dsimp only
           simp only [hne1]
           rfl)

/-- Contributing in-range record used by the C4 witness. -/
def recC4in : ReservationRecord :=
  { id := 2, plan_title := "P",
    payload := { agency_name := "ACME", plan_date := some ⟨2026, 2, 2⟩,
                 plan_cells := [("0,2", "K")] } }

/-- C4 witness: the amended theorem applied at a repository where one
record contributes cells in the February range and the January record
does not intersect — removing the latter leaves the rows unchanged. -/
theorem discard_nonintersecting_witness :
    (get_plan_ozet_range_data { reservations := [recC4in, recC4] } "P"
        (some ⟨2026, 2, 1⟩) (some ⟨2026, 2, 3⟩)).rows
      = (get_plan_ozet_range_data { reservations := [recC4in] } "P"
        (some ⟨2026, 2, 1⟩) (some ⟨2026, 2, 3⟩)).rows :=
  (discard_nonintersecting {} [recC4in] [] recC4 "P" ⟨2026, 2, 1⟩ ⟨2026, 2, 3⟩
    (by decide) (by rfl) (by rfl) (by decide) (by decide)).1

theorem countP_filterMap_general {α β : Type} (f : α → Option β) (p : β → Bool) :
    ∀ l : List α, (l.filterMap f).countP p
      = l.countP (fun a => ((f a).map p).getD false) := by
  intro l
  induction l with
  | nil => rfl
  | cons a rest ih =>
    cases hfa : f a with
    | none =>
      rw [List.filterMap_cons_none hfa, List.countP_cons, ih, hfa]
      simp
    | some b =>
      rw [List.filterMap_cons_some hfa, List.countP_cons, List.countP_cons, ih, hfa]
      simp

theorem alGet_fold_inc_getD {κ : Type} [DecidableEq κ] (keyOf : AggItem → κ) :
    ∀ (items : List AggItem) (m : List (κ × Nat)) (k : κ),
      (alGet (items.foldl (fun acc it =>
          alSet acc (keyOf it) ((alGet acc (keyOf it)).getD 0 + 1)) m) k).getD 0
        = (alGet m k).getD 0 + items.countP (fun it => keyOf it = k) := by
  intro items
  induction items with
  | nil => intro m k; simp
  | cons it rest ih =>
    intro m k
    rw [List.foldl_cons, ih, List.countP_cons]
    by_cases hk : keyOf it = k
    · subst hk
      rw [alGet_alSet_self]
      simp only [Option.getD_some, decide_eq_true_eq, if_pos rfl]
      simp
      omega
    · rw [alGet_alSet_other _ _ _ _ hk]
      simp only [decide_eq_true_eq, if_neg hk]
      omega

/-- The per-day count a row shows for the `i`-th date, blank read as 0,
summed over all rows. -/
def rowsDaySum (rows : List RangeRow) (i : Nat) : Nat :=
  (rows.map (fun rr => ((rr.days.get? i).getD none).getD 0)).sum

theorem sum_flatMap_pair {α β : Type} (g1 g2 : α → β)
    (f : β → Nat) :
    ∀ l : List α, ((l.flatMap (fun ch => [g1 ch, g2 ch])).map f).sum
      = (l.map (fun ch => f (g1 ch) + f (g2 ch))).sum := by
  intro l
  induction l with
  | nil => rfl
  | cons c rest ih =>
    rw [List.flatMap_cons, List.map_append, List.sum_append, List.map_cons,
      List.map_cons, List.map_nil, List.sum_cons, List.sum_cons, List.sum_nil, ih,
      List.map_cons, List.sum_cons]
    omega

theorem countP_or_disjoint {α : Type} (p q : α → Bool) :
    ∀ l : List α, (∀ a ∈ l, ¬(p a = true ∧ q a = true)) →
      l.countP (fun a => p a || q a) = l.countP p + l.countP q := by
  intro l
  induction l with
  | nil => intro _; rfl
  | cons a rest ih =>
    intro h
    have hrest := ih (fun x hx => h x (List.mem_cons_of_mem a hx))
    have ha := h a (List.mem_cons_self a rest)
    rw [List.countP_cons, List.countP_cons, List.countP_cons, hrest]
    cases hp : p a <;> cases hq : q a <;> simp [hp, hq] at ha ⊢ <;> omega

theorem sum_countP_distinct {κ : Type} [DecidableEq κ] :
    ∀ (keys : List κ) (l : List AggItem) (keyOf : AggItem → κ), keys.Nodup →
      (keys.map (fun k => l.countP (fun it => keyOf it = k))).sum
        = l.countP (fun it => keyOf it ∈ keys) := by
  intro keys
  induction keys with
  | nil =>
    intro l keyOf _
    simp
  | cons k ks ih =>
    intro l keyOf hnd
    rw [List.map_cons, List.sum_cons, ih l keyOf (List.Nodup.of_cons hnd)]
    have hknotin : k ∉ ks := (List.nodup_cons.mp hnd).1
    have hsplit : l.countP (fun it => keyOf it ∈ k :: ks)
        = l.countP (fun it => decide (keyOf it = k) || decide (keyOf it ∈ ks)) := by
      refine List.countP_congr (fun x _ => ?_)
      simp [List.mem_cons]
    rw [hsplit, countP_or_disjoint _ _ l (fun x _ hboth => ?_)]
    have h1 : keyOf x = k := by simpa using hboth.1
    have h2 : keyOf x ∈ ks := by simpa using hboth.2
    exact hknotin (h1 ▸ h2)

theorem alGet_alSet_cases {α β : Type} [DecidableEq α] (m : List (α × β)) (k k' : α)
    (v w : β) (h : alGet (alSet m k v) k' = some w) :
    (k = k' ∧ w = v) ∨ alGet m k' = some w := by
  by_cases hk : k = k'
  · subst hk
    rw [alGet_alSet_self] at h
    exact Or.inl ⟨rfl, (Option.some.inj h).symm⟩
  · rw [alGet_alSet_other _ _ _ _ hk] at h
    exact Or.inr h

theorem chByNorm_fold_spec :
    ∀ (l : List Channel) (acc : List (String × Channel)) (nm : String) (ch : Channel),
      alGet (l.foldl (fun a c => alSet a (normName c.name) c) acc) nm = some ch →
      (ch ∈ l ∧ normName ch.name = nm) ∨ alGet acc nm = some ch := by
  intro l
  induction l with
  | nil => intro acc nm ch h; exact Or.inr h
  | cons c rest ih =>
    intro acc nm ch h
    rw [List.foldl_cons] at h
    rcases ih _ nm ch h with ⟨hmem, hnm⟩ | hacc
    · exact Or.inl ⟨List.mem_cons_of_mem c hmem, hnm⟩
    · rcases alGet_alSet_cases _ _ _ _ _ hacc with ⟨hk, hv⟩ | hold
      · rw [hv]
        exact Or.inl ⟨List.mem_cons_self c rest, hk⟩
      · exact Or.inr hold

theorem chByNorm_spec (channels : List Channel) (nm : String) (ch : Channel)
    (h : alGet (chByNormOf channels) nm = some ch) :
    ch ∈ channels ∧ normName ch.name = nm := by
  rcases chByNorm_fold_spec channels [] nm ch h with hgood | hbad
  · exact hgood
  · exact absurd hbad (by simp [alGet])

theorem alGet_isSome_alSet {α β : Type} [DecidableEq α] (m : List (α × β)) (k k' : α)
    (v : β) (h : (alGet m k').isSome) : (alGet (alSet m k v) k').isSome := by
  by_cases hk : k = k'
  · subst hk
    rw [alGet_alSet_self]
    rfl
  · rw [alGet_alSet_other _ _ _ _ hk]
    exact h

theorem chByNorm_fold_isSome :
    ∀ (l : List Channel) (acc : List (String × Channel)) (nm : String),
      (nm ∈ l.map (fun c => normName c.name) ∨ (alGet acc nm).isSome) →
      (alGet (l.foldl (fun a c => alSet a (normName c.name) c) acc) nm).isSome := by
  intro l
  induction l with
  | nil =>
    intro acc nm h
    rcases h with h | h
    · simp at h
    · exact h
  | cons c rest ih =>
    intro acc nm h
    rw [List.foldl_cons]
    rcases h with h | h
    · rw [List.map_cons, List.mem_cons] at h
      rcases h with h | h
      · refine ih _ nm (Or.inr ?_)
        rw [← h, alGet_alSet_self]
        rfl
      · exact ih _ nm (Or.inl h)
    · exact ih _ nm (Or.inr (alGet_isSome_alSet _ _ _ _ h))

theorem chByNorm_isSome (channels : List Channel) (nm : String)
    (h : nm ∈ channels.map (fun c => normName c.name)) :
    (alGet (chByNormOf channels) nm).isSome :=
  chByNorm_fold_isSome channels [] nm (Or.inl h)

theorem displayFold_mono (channels : List Channel) :
    ∀ (used : List String) (acc : List Channel) (x : Channel), x ∈ acc →
      x ∈ used.foldl
        (fun acc nm =>
          match alGet (chByNormOf channels) nm with
          | some ch => if ch ∈ acc then acc else acc ++ [ch]
          | none => acc) acc := by
  intro used
  induction used with
  | nil => intro acc x hx; exact hx
  | cons nm rest ih =>
    intro acc x hx
    rw [List.foldl_cons]
    refine ih _ x ?_
    cases halg : alGet (chByNormOf channels) nm with
    | none => exact hx
    | some ch =>
      dsimp only
      by_cases hin : ch ∈ acc
      · rw [if_pos hin]; exact hx
      · rw [if_neg hin]; exact List.mem_append_left _ hx

theorem displayFold_covers (channels : List Channel) :
    ∀ (used : List String) (acc : List Channel) (nm : String) (ch : Channel),
      nm ∈ used → alGet (chByNormOf channels) nm = some ch →
      ch ∈ used.foldl
        (fun acc nm =>
          match alGet (chByNormOf channels) nm with
          | some ch => if ch ∈ acc then acc else acc ++ [ch]
          | none => acc) acc := by
  intro used
  induction used with
  | nil => intro acc nm ch h; exact absurd h (List.not_mem_nil nm)
  | cons nm0 rest ih =>
    intro acc nm ch hmem halg
    rw [List.foldl_cons]
    rcases List.mem_cons.mp hmem with heq | hrest
    · subst heq
      rw [halg]
      dsimp only
      by_cases hin : ch ∈ acc
      · rw [if_pos hin]
        exact displayFold_mono channels rest _ ch hin
      · rw [if_neg hin]
        exact displayFold_mono channels rest _ ch (List.mem_append_right _
          (List.mem_singleton.mpr rfl))
    · exact ih _ nm ch hrest halg

/-- Every used channel name that the table knows appears among the
display channels' normalised names. -/
theorem display_covers (channels : List Channel) (usedSorted : List String)
    (nm : String) (hused : nm ∈ usedSorted)
    (htab : nm ∈ channels.map (fun c => normName c.name)) :
    nm ∈ (displayChannelsOf channels usedSorted).map (fun c => normName c.name) := by
  obtain ⟨ch, hch⟩ := Option.isSome_iff_exists.mp (chByNorm_isSome channels nm htab)
  have hmem : ch ∈ displayChannelsOf channels usedSorted := by
    unfold displayChannelsOf
    exact displayFold_covers channels usedSorted _ nm ch hused hch
  have hnm : normName ch.name = nm := (chByNorm_spec channels nm ch hch).2
  exact hnm ▸ List.mem_map_of_mem _ hmem

theorem displayFold_nodup_norms (channels : List Channel)
    (hnorm : (channels.map (fun c => normName c.name)).Nodup) :
    ∀ (used : List String) (acc : List Channel),
      (∀ x ∈ acc, x ∈ channels) →
      ((acc.map (fun c => normName c.name)).Nodup) →
      (((used.foldl
          (fun acc nm =>
            match alGet (chByNormOf channels) nm with
            | some ch => if ch ∈ acc then acc else acc ++ [ch]
            | none => acc) acc).map (fun c => normName c.name)).Nodup) := by
  intro used
  induction used with
  | nil => intro acc _ h2; exact h2
  | cons nm rest ih =>
    intro acc h1 h2
    rw [List.foldl_cons]
    cases halg : alGet (chByNormOf channels) nm with
    | none => exact ih acc h1 h2
    | some ch =>
      dsimp only
      by_cases hin : ch ∈ acc
      · rw [if_pos hin]
        exact ih acc h1 h2
      · rw [if_neg hin]
        have hch := chByNorm_spec channels nm ch halg
        refine ih (acc ++ [ch]) ?_ ?_
        · intro x hx
          rcases List.mem_append.mp hx with hx | hx
          · exact h1 x hx
          · rw [List.mem_singleton.mp hx]
            exact hch.1
        · rw [List.map_append]
          rw [List.nodup_append]
          refine ⟨h2, List.nodup_singleton _, ?_⟩
          intro a ha hb
          rw [List.map_singleton, List.mem_singleton] at hb
          subst hb
          obtain ⟨y, hy, hyn⟩ := List.mem_map.mp ha
          have : y = ch := List.inj_on_of_nodup_map hnorm (h1 y hy) hch.1 hyn
          exact hin (this ▸ hy)

theorem display_nodup_norms (channels : List Channel) (usedSorted : List String)
    (hnorm : (channels.map (fun c => normName c.name)).Nodup) :
    (((displayChannelsOf channels usedSorted).map (fun c => normName c.name)).Nodup) := by
  unfold displayChannelsOf
  refine displayFold_nodup_norms channels hnorm usedSorted _ ?_ ?_
  · intro x hx
    exact List.mem_of_mem_filter hx
  · exact List.Nodup.sublist (List.Sublist.map _ (List.filter_sublist _)) hnorm

/-- The row keys of the rollup output: one DT and one ODT key per
display channel, in display order. -/
def keysOf (chs : List Channel) : List (String × String) :=
  chs.flatMap (fun ch => [(normName ch.name, "DT"), (normName ch.name, "ODT")])

theorem keys_fst_mem (chs : List Channel) :
    ∀ k ∈ keysOf chs, k.1 ∈ chs.map (fun c => normName c.name) := by
  induction chs with
  | nil => intro k hk; exact absurd hk (List.not_mem_nil k)
  | cons ch rest ih =>
    intro k hk
    unfold keysOf at hk
    rw [List.flatMap_cons] at hk
    rcases List.mem_append.mp hk with hk | hk
    · rcases List.mem_cons.mp hk with hk | hk
      · rw [hk]
        exact List.mem_cons_self _ _
      · rw [List.mem_singleton.mp hk]
        exact List.mem_cons_self _ _
    · exact List.mem_cons_of_mem _ (ih k hk)

theorem keys_nodup (chs : List Channel)
    (h : (chs.map (fun c => normName c.name)).Nodup) : (keysOf chs).Nodup := by
  induction chs with
  | nil => exact List.nodup_nil
  | cons ch rest ih =>
    rw [List.map_cons, List.nodup_cons] at h
    unfold keysOf
    rw [List.flatMap_cons]
    have htail : (keysOf rest).Nodup := ih h.2
    have hnotin : ∀ d : String, (normName ch.name, d) ∉ keysOf rest := by
      intro d hmem
      exact h.1 (keys_fst_mem rest _ hmem)
    rw [List.cons_append, List.singleton_append, List.nodup_cons, List.nodup_cons]
    refine ⟨?_, ?_, htail⟩
    · intro hmem
      rcases List.mem_cons.mp hmem with hmem | hmem
      · have hsnd : ("DT" : String) = "ODT" := congrArg Prod.snd hmem
        exact absurd hsnd (by decide)
      · exact hnotin _ hmem
    · exact hnotin _

theorem classifyMins_cases (m : Int) :
    classifyMins m = "DT" ∨ classifyMins m = "ODT" := by
  unfold classifyMins
  split
  · exact Or.inl rfl
  · exact Or.inr rfl

/-- Spec-side cell test for the conservation law: an occupied
(non-empty, parseable, validly dated) cell lying on date `d`. -/
def cellOnDate (d : PDate) (ym : Nat × Nat) (kv : String × String) : Bool :=
  if pyStrip kv.2 = "" then false
  else
    match parseCellKey kv.1 with
    | none => false
    | some rd =>
      match mkDate? ym.1 ym.2 rd.2 with
      | none => false
      | some dd => dd = d

/-- Number of occupied cells on date `d` across all contributing
reservations (each kept record counted with its own selected cell
sub-matrices). -/
def occupiedCellsOnDate (pairs : List (ReservationRecord × Mmaps)) (d : PDate) : Nat :=
  (pairs.map (fun pr =>
    (pr.2.map (fun ymc => (ymc.2.filter (cellOnDate d ymc.1)).length)).sum)).sum

theorem countP_flatMap {α β : Type} (f : α → List β) (p : β → Bool) :
    ∀ l : List α, (l.flatMap f).countP p = (l.map (fun a => (f a).countP p)).sum := by
  intro l
  induction l with
  | nil => rfl
  | cons a rest ih =>
    rw [List.flatMap_cons, List.countP_append, ih, List.map_cons, List.sum_cons]

theorem cellItem_date_pointwise (dates : List PDate)
    (priceMaps : Nat → List ((Int × Nat) × (ℚ × ℚ))) (chId? : Option Int)
    (codeMap : List (String × ℚ)) (norm : String) (d : PDate) (ym : Nat × Nat)
    (kv : String × String) (hd : d ∈ dates) :
    ((cellItem dates priceMaps chId? codeMap norm ym kv).map
      (fun it => decide (it.key.2.2 = d))).getD false = cellOnDate d ym kv := by
  unfold cellItem cellOnDate
  by_cases h1 : pyStrip kv.2 = ""
  · rw [if_pos h1, if_pos h1]
    rfl
  · rw [if_neg h1, if_neg h1]
    cases parseCellKey kv.1 with
    | none => rfl
    | some rd =>
      dsimp only
      cases mkDate? ym.1 ym.2 rd.2 with
      | none => rfl
      | some dd =>
        dsimp only
        by_cases h2 : dd ∈ dates
        · rw [if_pos h2]
          rfl
        · rw [if_neg h2]
          have hne : dd ≠ d := fun heq => h2 (heq ▸ hd)
          simp [hne]

theorem cellItem_key_shape (dates : List PDate)
    (priceMaps : Nat → List ((Int × Nat) × (ℚ × ℚ))) (chId? : Option Int)
    (codeMap : List (String × ℚ)) (norm : String) (ym : Nat × Nat)
    (kv : String × String) (it : AggItem)
    (h : cellItem dates priceMaps chId? codeMap norm ym kv = some it) :
    it.key.1 = norm ∧ (it.key.2.1 = "DT" ∨ it.key.2.1 = "ODT") := by
  unfold cellItem at h
  by_cases h1 : pyStrip kv.2 = ""
  · rw [if_pos h1] at h
    cases h
  · rw [if_neg h1] at h
    cases hp : parseCellKey kv.1 with
    | none =>
      rw [hp] at h
      cases h
    | some rd =>
      rw [hp] at h
      dsimp only at h
      cases hm : mkDate? ym.1 ym.2 rd.2 with
      | none =>
        rw [hm] at h
        cases h
      | some dd =>
        rw [hm] at h
        dsimp only at h
        by_cases h2 : dd ∈ dates
        · rw [if_pos h2] at h
          have := Option.some.inj h
          rw [← this]
          exact ⟨rfl, classifyMins_cases _⟩
        · rw [if_neg h2] at h
          cases h

theorem itemsOfRecord_key_shape (dates : List PDate)
    (priceMaps : Nat → List ((Int × Nat) × (ℚ × ℚ)))
    (chByNorm : List (String × Channel)) (cellsAssoc : List (Int × Mmaps))
    (r : ReservationRecord) (it : AggItem)
    (h : it ∈ itemsOfRecord dates priceMaps chByNorm cellsAssoc r) :
    it.key.1 = normName r.payload.channel_name ∧
      normName r.payload.channel_name ≠ "" ∧
      (it.key.2.1 = "DT" ∨ it.key.2.1 = "ODT") := by
  unfold itemsOfRecord at h
  by_cases h1 : normName r.payload.channel_name = ""
  · rw [if_pos h1] at h
    exact absurd h (List.not_mem_nil it)
  · rw [if_neg h1] at h
    dsimp only at h
    obtain ⟨ymc, _, hkv⟩ := List.mem_flatMap.mp h
    obtain ⟨kv, _, hcell⟩ := List.mem_filterMap.mp hkv
    obtain ⟨hk1, hk2⟩ := cellItem_key_shape _ _ _ _ _ _ _ _ hcell
    exact ⟨hk1, h1, hk2⟩

theorem itemsOfRecord_date_count (dates : List PDate)
    (priceMaps : Nat → List ((Int × Nat) × (ℚ × ℚ)))
    (chByNorm : List (String × Channel)) (cellsAssoc : List (Int × Mmaps))
    (r : ReservationRecord) (mm : Mmaps) (d : PDate) (hd : d ∈ dates)
    (hnz : normName r.payload.channel_name ≠ "")
    (hassoc : alGet cellsAssoc r.id = some mm) :
    (itemsOfRecord dates priceMaps chByNorm cellsAssoc r).countP
        (fun it => it.key.2.2 = d)
      = (mm.map (fun ymc => (ymc.2.filter (cellOnDate d ymc.1)).length)).sum := by
  unfold itemsOfRecord
  rw [if_neg hnz]
  dsimp only
  rw [hassoc]
  dsimp only [Option.getD_some]
  rw [countP_flatMap]
  refine congrArg List.sum (List.map_congr_left (fun ymc _ => ?_))
  rw [countP_filterMap_general]
  rw [List.countP_eq_length_filter]
  refine congrArg List.length (List.filter_congr (fun kv _ => ?_))
  exact cellItem_date_pointwise dates priceMaps _ _ _ d ymc.1 kv hd

theorem alGet_fold_preserve :
    ∀ (ps : List (ReservationRecord × Mmaps)) (acc : List (Int × Mmaps)) (k : Int),
      (∀ q ∈ ps, q.1.id ≠ k) →
      alGet (ps.foldl (fun a q => alSet a q.1.id q.2) acc) k = alGet acc k := by
  intro ps
  induction ps with
  | nil => intro acc k _; rfl
  | cons q rest ih =>
    intro acc k h
    rw [List.foldl_cons, ih _ k (fun x hx => h x (List.mem_cons_of_mem q hx))]
    exact alGet_alSet_other _ _ _ _ (h q (List.mem_cons_self q rest))

theorem assoc_lookup_own :
    ∀ (ps : List (ReservationRecord × Mmaps)) (acc : List (Int × Mmaps)),
      ((ps.map (fun pr => pr.1.id)).Nodup) →
      (∀ pr ∈ ps, alGet acc pr.1.id = none) →
      ∀ pr ∈ ps,
        alGet (ps.foldl (fun a q => alSet a q.1.id q.2) acc) pr.1.id = some pr.2 := by
  intro ps
  induction ps with
  | nil => intro acc _ _ pr hpr; exact absurd hpr (List.not_mem_nil pr)
  | cons q rest ih =>
    intro acc hnd hnone pr hpr
    rw [List.map_cons, List.nodup_cons] at hnd
    rw [List.foldl_cons]
    rcases List.mem_cons.mp hpr with heq | hrest
    · subst heq
      rw [alGet_fold_preserve rest _ pr.1.id
        (fun x hx hxk => hnd.1 (hxk ▸ List.mem_map_of_mem _ hx))]
      exact alGet_alSet_self _ _ _
    · refine ih _ hnd.2 (fun x hx => ?_) pr hrest
      by_cases hxq : x.1.id = q.1.id
      · exact absurd (hxq ▸ List.mem_map_of_mem (fun pr => pr.1.id) hx) hnd.1
      · rw [alGet_alSet_other _ _ _ _ (fun h => hxq h.symm)]
        exact hnone x (List.mem_cons_of_mem q hx)

theorem selectRecords_fold_structure (rs re_ : PDate) (months : List (Nat × Nat)) :
    ∀ (recs : List ReservationRecord) (acc : List (ReservationRecord × Mmaps)),
      ∃ sub : List (ReservationRecord × Mmaps),
        recs.foldl
          (fun acc r =>
            match selRecord rs re_ months r with
            | none => acc
            | some mm => acc ++ [(r, mm)]) acc = acc ++ sub ∧
        (sub.map (fun pr => pr.1)).Sublist recs := by
  intro recs
  induction recs with
  | nil => intro acc; exact ⟨[], by simp, List.nil_sublist []⟩
  | cons r rest ih =>
    intro acc
    rw [List.foldl_cons]
    cases hsel : selRecord rs re_ months r with
    | none =>
      obtain ⟨sub, heq, hsub⟩ := ih acc
      refine ⟨sub, ?_, hsub.cons r⟩
      dsimp only
      exact heq
    | some mm =>
      obtain ⟨sub, heq, hsub⟩ := ih (acc ++ [(r, mm)])
      refine ⟨(r, mm) :: sub, ?_, ?_⟩
      · dsimp only
        rw [heq, List.append_assoc]
        rfl
      · rw [List.map_cons]
        exact hsub.cons₂ r
  
theorem selectRecords_fst_sublist (rs re_ : PDate) (months : List (Nat × Nat))
    (recs : List ReservationRecord) :
    ((selectRecords rs re_ months recs).map (fun pr => pr.1)).Sublist recs := by
  obtain ⟨sub, heq, hsub⟩ := selectRecords_fold_structure rs re_ months recs []
  unfold selectRecords
  rw [heq, List.nil_append]
  exact hsub

theorem aggItems_date_count (dates : List PDate)
    (priceMaps : Nat → List ((Int × Nat) × (ℚ × ℚ)))
    (chbn : List (String × Channel)) (pairs : List (ReservationRecord × Mmaps))
    (d : PDate) (hd : d ∈ dates)
    (hnd : ((pairs.map (fun pr => pr.1.id)).Nodup))
    (hnz : ∀ pr ∈ pairs, normName pr.1.payload.channel_name ≠ "") :
    (aggItems dates priceMaps chbn
        (pairs.foldl (fun acc pr => alSet acc pr.1.id pr.2) [])
        (pairs.map (fun pr => pr.1))).countP (fun it => it.key.2.2 = d)
      = occupiedCellsOnDate pairs d := by
  unfold aggItems
  rw [countP_flatMap, List.map_map]
  unfold occupiedCellsOnDate
  refine congrArg List.sum (List.map_congr_left (fun pr hpr => ?_))
  exact itemsOfRecord_date_count dates priceMaps chbn _ pr.1 pr.2 d hd (hnz pr hpr)
    (assoc_lookup_own pairs [] hnd (fun _ _ => rfl) pr hpr)

theorem countsOf_get (items : List AggItem) (key : String × String × PDate) :
    (alGet (countsOf items) key).getD 0
      = items.countP (fun it => it.key = key) := by
  have h := alGet_fold_inc_getD (fun it => it.key) items [] key
  unfold countsOf
  rw [h]
  exact Nat.zero_add _

theorem rowFor_day_value (dates : List PDate) (months : List (Nat × Nat))
    (priceMaps : Nat → List ((Int × Nat) × (ℚ × ℚ)))
    (counts : List ((String × String × PDate) × Nat))
    (seconds budgets : List ((String × String × PDate) × ℚ))
    (accessMap : List (String × String)) (ch : Channel) (dtodt : String)
    (i : Nat) (hi : i < dates.length) :
    (((rowFor dates months priceMaps counts seconds budgets accessMap ch
        dtodt).days.get? i).getD none).getD 0
      = (alGet counts (normName ch.name, dtodt, dates.get ⟨i, hi⟩)).getD 0 := by
  unfold rowFor
  dsimp only
  rw [List.get?_map, List.get?_map, List.get?_eq_get hi]
  dsimp only [Option.map_some', Option.getD_some]
  by_cases h0 : (alGet counts (normName ch.name, dtodt, dates.get ⟨i, hi⟩)).getD 0 = 0
  · rw [if_pos h0, h0]
    rfl
  · rw [if_neg h0]
    rfl

theorem sum_keysOf (chs : List Channel) (f : String × String → Nat) :
    ((keysOf chs).map f).sum
      = (chs.map (fun ch =>
          f (normName ch.name, "DT") + f (normName ch.name, "ODT"))).sum := by
  unfold keysOf
  exact sum_flatMap_pair _ _ f chs

theorem keys_sum_eq_dateCount (chs : List Channel) (items : List AggItem) (d : PDate)
    (hnd : (keysOf chs).Nodup)
    (hcov : ∀ it ∈ items, (it.key.1, it.key.2.1) ∈ keysOf chs) :
    ((keysOf chs).map (fun k2 =>
        items.countP (fun it => it.key = (k2.1, k2.2, d)))).sum
      = items.countP (fun it => it.key.2.2 = d) := by
  have hinj : Function.Injective
      (fun k2 : String × String => (k2.1, k2.2, d)) := by
    intro a b hab
    have h1 : a.1 = b.1 := congrArg (fun x : String × String × PDate => x.1) hab
    have h2 : a.2 = b.2 := congrArg (fun x : String × String × PDate => x.2.1) hab
    exact Prod.ext h1 h2
  have hkeys3 : (((keysOf chs).map (fun k2 => (k2.1, k2.2, d))) :
      List (String × String × PDate)).Nodup := hnd.map hinj
  have hstep : ((keysOf chs).map (fun k2 =>
      items.countP (fun it => it.key = (k2.1, k2.2, d)))).sum
      = (((keysOf chs).map (fun k2 => (k2.1, k2.2, d))).map (fun k3 =>
          items.countP (fun it => it.key = k3))).sum := by
    rw [List.map_map]
    rfl
  rw [hstep, sum_countP_distinct _ items (fun it => it.key) hkeys3]
  refine List.countP_congr (fun it hit => ?_)
  simp only [decide_eq_true_eq]
  constructor
  · intro hmem
    obtain ⟨k2, _, hk2⟩ := List.mem_map.mp hmem
    rw [← hk2]
  · intro hdate
    refine List.mem_map.mpr ⟨(it.key.1, it.key.2.1), hcov it hit, ?_⟩
    dsimp only
    rw [← hdate]

theorem keys_sum_spread (chs : List Channel) (items : List AggItem) (d : PDate) :
    ((keysOf chs).map (fun k2 =>
        items.countP (fun it => it.key = (k2.1, k2.2, d)))).sum
      = (chs.map (fun ch =>
          items.countP (fun it => it.key = (normName ch.name, "DT", d))
          + items.countP (fun it => it.key = (normName ch.name, "ODT", d)))).sum := by
  induction chs with
  | nil => rfl
  | cons ch rest ih =>
    unfold keysOf
    rw [List.flatMap_cons, List.map_append, List.sum_append, List.map_cons,
      List.map_cons, List.map_nil, List.sum_cons, List.sum_cons, List.sum_nil]
    unfold keysOf at ih
    rw [ih, List.map_cons, List.sum_cons]
    dsimp only
    omega

theorem rowFor_days_length (dates : List PDate) (months : List (Nat × Nat))
    (priceMaps : Nat → List ((Int × Nat) × (ℚ × ℚ)))
    (counts : List ((String × String × PDate) × Nat))
    (seconds budgets : List ((String × String × PDate) × ℚ))
    (accessMap : List (String × String)) (ch : Channel) (dtodt : String) :
    (rowFor dates months priceMaps counts seconds budgets accessMap ch
      dtodt).days.length = dates.length := by
  unfold rowFor
  dsimp only
  rw [List.length_map, List.length_map]

theorem rowsDaySum_flatMap (dates : List PDate) (months : List (Nat × Nat))
    (priceMaps : Nat → List ((Int × Nat) × (ℚ × ℚ)))
    (counts : List ((String × String × PDate) × Nat))
    (seconds budgets : List ((String × String × PDate) × ℚ))
    (accessMap : List (String × String)) (i : Nat) (hi : i < dates.length) :
    ∀ chs : List Channel,
      rowsDaySum (chs.flatMap (fun ch =>
        [rowFor dates months priceMaps counts seconds budgets accessMap ch "DT",
         rowFor dates months priceMaps counts seconds budgets accessMap ch "ODT"])) i
      = (chs.map (fun ch =>
          (alGet counts (normName ch.name, "DT", dates.get ⟨i, hi⟩)).getD 0
          + (alGet counts (normName ch.name, "ODT", dates.get ⟨i, hi⟩)).getD 0)).sum := by
  intro chs
  induction chs with
  | nil => rfl
  | cons ch rest ih =>
    unfold rowsDaySum at ih ⊢
    rw [List.flatMap_cons, List.map_append, List.sum_append, ih, List.map_cons,
      List.map_cons, List.map_nil, List.sum_cons, List.sum_cons, List.sum_nil,
      List.map_cons, List.sum_cons]
    rw [rowFor_day_value dates months priceMaps counts seconds budgets accessMap
        ch "DT" i hi,
      rowFor_day_value dates months priceMaps counts seconds budgets accessMap
        ch "ODT" i hi]
    omega

theorem keys_mem_of (chs : List Channel) (nm dt : String)
    (hnm : nm ∈ chs.map (fun c => normName c.name))
    (hdt : dt = "DT" ∨ dt = "ODT") :
    (nm, dt) ∈ keysOf chs := by
  obtain ⟨c, hc, hcn⟩ := List.mem_map.mp hnm
  subst hcn
  unfold keysOf
  refine List.mem_flatMap.mpr ⟨c, hc, ?_⟩
  rcases hdt with rfl | rfl
  · exact List.mem_cons_self _ _
  · exact List.mem_cons_of_mem _ (List.mem_singleton.mpr rfl)

theorem mem_usedChannels (rel : List ReservationRecord) (r : ReservationRecord)
    (hr : r ∈ rel) (hnz : normName r.payload.channel_name ≠ "") :
    normName r.payload.channel_name ∈ usedChannelsOf rel := by
  unfold usedChannelsOf sortStrings
  refine (List.perm_insertionSort _ _).mem_iff.mpr ?_
  refine List.mem_filter.mpr
    ⟨(mem_firstUniq _ _).mpr (List.mem_map_of_mem _ hr), ?_⟩
  simpa using hnz

theorem sortChannels_mem (chs : List Channel) (a : Channel) :
    a ∈ sortChannelsByName chs ↔ a ∈ chs :=
  (List.perm_insertionSort _ _).mem_iff

theorem sortChannels_map_mem (chs : List Channel) (nm : String)
    (h : nm ∈ chs.map (fun c => normName c.name)) :
    nm ∈ (sortChannelsByName chs).map (fun c => normName c.name) := by
  obtain ⟨c, hc, hcn⟩ := List.mem_map.mp h
  exact hcn ▸ List.mem_map_of_mem _ ((sortChannels_mem chs c).mpr hc)

theorem sortChannels_norms_nodup (chs : List Channel)
    (h : (chs.map (fun c => normName c.name)).Nodup) :
    ((sortChannelsByName chs).map (fun c => normName c.name)).Nodup :=
  (((List.perm_insertionSort _ chs).map _).nodup_iff).mpr h

theorem zipfold_get_aux :
    ∀ (rows : List RangeRow) (acc : List Nat) (i : Nat) (hi : i < acc.length),
      (∀ rr ∈ rows, rr.days.length = acc.length) →
      (rows.foldl
          (fun a rr => List.zipWith (fun x b => x + b.getD 0) a rr.days)
          acc).get? i = some (acc.get ⟨i, hi⟩ + rowsDaySum rows i) := by
  intro rows
  induction rows with
  | nil =>
    intro acc i hi _
    rw [List.foldl_nil, List.get?_eq_get hi]
    unfold rowsDaySum
    simp
  | cons rr rest ih =>
    intro acc i hi hlen
    rw [List.foldl_cons]
    have hrr : rr.days.length = acc.length := hlen rr (List.mem_cons_self rr rest)
    have hlen' : (List.zipWith (fun x b => x + b.getD 0) acc rr.days).length
        = acc.length := by
      rw [List.length_zipWith, hrr, Nat.min_self]
    have hi' : i < (List.zipWith (fun x b => x + b.getD 0) acc rr.days).length := by
      rw [hlen']
      exact hi
    rw [ih _ i hi' (fun x hx => by
      rw [hlen']
      exact hlen x (List.mem_cons_of_mem rr hx))]
    have hid : i < rr.days.length := by
      rw [hrr]
      exact hi
    have hzip : (List.zipWith (fun x b => x + b.getD 0) acc rr.days).get ⟨i, hi'⟩
        = acc.get ⟨i, hi⟩ + (rr.days.get ⟨i, hid⟩).getD 0 := by
      simp [List.getElem_zipWith]
    rw [hzip]
    unfold rowsDaySum
    rw [List.map_cons, List.sum_cons, List.get?_eq_get hid]
    simp only [Option.getD_some, Option.some.injEq]
    omega

theorem totals_day_get (dates : List PDate) (rows : List RangeRow) (i : Nat)
    (hi : i < dates.length)
    (hlen : ∀ rr ∈ rows, rr.days.length = dates.length) :
    (rows.foldl
        (fun a rr => List.zipWith (fun x b => x + b.getD 0) a rr.days)
        (List.replicate dates.length 0)).get? i = some (rowsDaySum rows i) := by
  have hrep : i < (List.replicate dates.length (0 : Nat)).length := by
    rw [List.length_replicate]
    exact hi
  rw [zipfold_get_aux rows _ i hrep (fun rr hr => by
    rw [List.length_replicate]
    exact hlen rr hr)]
  rw [List.get_replicate]
  rw [Nat.zero_add]

theorem rows_flatMap_days_length (dates : List PDate) (months : List (Nat × Nat))
    (priceMaps : Nat → List ((Int × Nat) × (ℚ × ℚ)))
    (counts : List ((String × String × PDate) × Nat))
    (seconds budgets : List ((String × String × PDate) × ℚ))
    (accessMap : List (String × String)) (chs : List Channel) :
    ∀ rr ∈ chs.flatMap (fun ch =>
      [rowFor dates months priceMaps counts seconds budgets accessMap ch "DT",
       rowFor dates months priceMaps counts seconds budgets accessMap ch "ODT"]),
      rr.days.length = dates.length := by
  intro rr hrr
  obtain ⟨ch, _, hmem⟩ := List.mem_flatMap.mp hrr
  rcases List.mem_cons.mp hmem with heq | hmem2
  · rw [heq]
    exact rowFor_days_length dates months priceMaps counts seconds budgets
      accessMap ch "DT"
  · rw [List.mem_singleton.mp hmem2]
    exact rowFor_days_length dates months priceMaps counts seconds budgets
      accessMap ch "ODT"

theorem blank_roundtrip (o : Option Nat) (S : Nat) (h : o = some S) :
    ((o.map (fun v => if v = 0 then none else some v)).getD none).getD 0 = S := by
  subst h
  by_cases hS : S = 0 <;> simp [hS]

theorem rows_day_conservation_core
    (channels : List Channel) (rs re_ : PDate) (months : List (Nat × Nat))
    (priceMaps : Nat → List ((Int × Nat) × (ℚ × ℚ)))
    (seconds budgets : List ((String × String × PDate) × ℚ))
    (accessMap : List (String × String))
    (pairs : List (ReservationRecord × Mmaps)) (i : Nat)
    (hi : i < (dateRange rs re_).length)
    (hids : (pairs.map (fun pr => pr.1.id)).Nodup)
    (hnorm : (channels.map (fun c => normName c.name)).Nodup)
    (hreg : ∀ pr ∈ pairs, normName pr.1.payload.channel_name ≠ "" ∧
        normName pr.1.payload.channel_name ∈
          channels.map (fun c => normName c.name)) :
    rowsDaySum
      ((sortChannelsByName (displayChannelsOf channels
          (usedChannelsOf (pairs.map (fun pr => pr.1))))).flatMap (fun ch =>
        [rowFor (dateRange rs re_) months priceMaps
            (countsOf (aggItems (dateRange rs re_) priceMaps (chByNormOf channels)
              (pairs.foldl (fun acc pr => alSet acc pr.1.id pr.2) [])
              (pairs.map (fun pr => pr.1))))
            seconds budgets accessMap ch "DT",
         rowFor (dateRange rs re_) months priceMaps
            (countsOf (aggItems (dateRange rs re_) priceMaps (chByNormOf channels)
              (pairs.foldl (fun acc pr => alSet acc pr.1.id pr.2) [])
              (pairs.map (fun pr => pr.1))))
            seconds budgets accessMap ch "ODT"])) i
      = occupiedCellsOnDate pairs ((dateRange rs re_).get ⟨i, hi⟩) := by
  have hd : (dateRange rs re_).get ⟨i, hi⟩ ∈ dateRange rs re_ :=
    List.get_mem _ _ _
  have hdisp : ((displayChannelsOf channels
      (usedChannelsOf (pairs.map (fun pr => pr.1)))).map
        (fun c => normName c.name)).Nodup :=
    display_nodup_norms channels _ hnorm
  have hnd : (keysOf (sortChannelsByName (displayChannelsOf channels
      (usedChannelsOf (pairs.map (fun pr => pr.1)))))).Nodup :=
    keys_nodup _ (sortChannels_norms_nodup _ hdisp)
  have hcov : ∀ it ∈ aggItems (dateRange rs re_) priceMaps (chByNormOf channels)
      (pairs.foldl (fun acc pr => alSet acc pr.1.id pr.2) [])
      (pairs.map (fun pr => pr.1)),
      (it.key.1, it.key.2.1) ∈ keysOf (sortChannelsByName (displayChannelsOf
        channels (usedChannelsOf (pairs.map (fun pr => pr.1))))) := by
    intro it hit
    unfold aggItems at hit
    obtain ⟨r, hr, hitem⟩ := List.mem_flatMap.mp hit
    obtain ⟨hk1, hnz, hdt⟩ := itemsOfRecord_key_shape _ _ _ _ r it hitem
    obtain ⟨pr, hpr, hpr1⟩ := List.mem_map.mp hr
    refine keys_mem_of _ _ _ ?_ hdt
    rw [hk1]
    apply sortChannels_map_mem
    refine display_covers channels _ _ ?_ ?_
    · exact mem_usedChannels _ r hr hnz
    · have := (hreg pr hpr).2
      rw [hpr1] at this
      exact this
  rw [rowsDaySum_flatMap _ months priceMaps _ seconds budgets accessMap i hi]
  simp only [countsOf_get]
  rw [← keys_sum_spread]
  rw [keys_sum_eq_dateCount _ _ _ hnd hcov]
  exact aggItems_date_count _ priceMaps _ pairs _ hd hids
    (fun pr hpr => (hreg pr hpr).1)

theorem rangeAssemble_day_conservation (repo : Repo) (pt : String) (rs re_ : PDate)
    (recs : List ReservationRecord) (pairs : List (ReservationRecord × Mmaps))
    (i : Nat) (hi : i < (dateRange rs re_).length)
    (hids : (pairs.map (fun pr => pr.1.id)).Nodup)
    (hnorm : (repo.channels.map (fun c => normName c.name)).Nodup)
    (hreg : ∀ pr ∈ pairs, normName pr.1.payload.channel_name ≠ "" ∧
        normName pr.1.payload.channel_name ∈
          repo.channels.map (fun c => normName c.name)) :
    rowsDaySum (rangeAssemble repo pt rs re_ recs pairs).rows i
      = occupiedCellsOnDate pairs ((dateRange rs re_).get ⟨i, hi⟩) ∧
    (((rangeAssemble repo pt rs re_ recs pairs).totals.days.get? i).getD
        none).getD 0
      = rowsDaySum (rangeAssemble repo pt rs re_ recs pairs).rows i := by
  unfold rangeAssemble totalsOf
  dsimp only
  constructor
  · exact rows_day_conservation_core repo.channels rs re_ _ _ _ _ _ pairs i hi
      hids hnorm hreg
  · rw [List.get?_map]
    exact blank_roundtrip _ _ (totals_day_get _ _ i hi
      (rows_flatMap_days_length _ _ _ _ _ _ _ _))

/-- Confirmed record with one occupied cell on 02.02.2026 on channel
`"TRT"` (C1). -/
def recC1 : ReservationRecord :=
  { id := 1, plan_title := "P",
    payload := { channel_name := "TRT", plan_date := some ⟨2026, 2, 2⟩,
                 plan_cells := [("0,2", "K")] } }

/-- Repository whose channel table does not know the record's channel
(C1 counterexample). -/
def repoC1x : Repo := { reservations := [recC1] }

/-- The record's channel as a channel-table row (C1 witness). -/
def chC1 : Channel := { id := 7, name := "TRT", is_active := 1 }

/-- Registered-channel variant of the same repository (C1 witness). -/
def repoC1w : Repo := { reservations := [recC1], channels := [chC1] }

/-- C1 counterexample: the date 02.02.2026 is the second day of the
requested range, the fetched record has exactly one occupied cell on
it, yet the rows of the rollup sum to zero spots for that day because
the record's channel is not in the channel table. -/
theorem conservation_counterexample :
    (dateRange ⟨2026, 2, 1⟩ ⟨2026, 2, 2⟩).get? 1 = some ⟨2026, 2, 2⟩ ∧
    rowsDaySum (get_plan_ozet_range_data repoC1x "P" (some ⟨2026, 2, 1⟩)
        (some ⟨2026, 2, 2⟩)).rows 1 = 0 ∧
    occupiedCellsOnDate
        (selectRecords ⟨2026, 2, 1⟩ ⟨2026, 2, 2⟩
          (monthsOf (dateRange ⟨2026, 2, 1⟩ ⟨2026, 2, 2⟩))
          (listConfirmedByPlanTitle repoC1x "P" 5000))
        ⟨2026, 2, 2⟩ = 1 := by
  refine ⟨by decide, by decide, by decide⟩

/-- C1 (amended): conservation law of the range rollup.  For a
non-blank plan title, when the fetched records have distinct ids, the
channel table has distinct normalised names, and every kept record's
normalised channel name is non-blank and present in the channel table,
then for every date of the (normalised) range the sum over all rows of
the rollup's per-day count equals the number of occupied (non-empty,
parseable, validly dated, in-range) cells across all contributing
reservations for that date, and the totals row shows that same sum for
the day (blank standing for zero). -/
theorem rollup_day_conservation (repo : Repo) (plan_title : String) (s e : PDate)
    (i : Nat)
    (hpt : pyStrip plan_title ≠ "")
    (hids : ((listConfirmedByPlanTitle repo (pyStrip plan_title) 5000).map
        (fun r => r.id)).Nodup)
    (hnorm : (repo.channels.map (fun c => normName c.name)).Nodup)
    (hreg : ∀ pr ∈ selectRecords (normSpan s e).1 (normSpan s e).2
        (monthsOf (dateRange (normSpan s e).1 (normSpan s e).2))
        (listConfirmedByPlanTitle repo (pyStrip plan_title) 5000),
        normName pr.1.payload.channel_name ≠ "" ∧
        normName pr.1.payload.channel_name ∈
          repo.channels.map (fun c => normName c.name))
    (hi : i < (dateRange (normSpan s e).1 (normSpan s e).2).length) :
    rowsDaySum
        (get_plan_ozet_range_data repo plan_title (some s) (some e)).rows i
      = occupiedCellsOnDate
          (selectRecords (normSpan s e).1 (normSpan s e).2
            (monthsOf (dateRange (normSpan s e).1 (normSpan s e).2))
            (listConfirmedByPlanTitle repo (pyStrip plan_title) 5000))
          ((dateRange (normSpan s e).1 (normSpan s e).2).get ⟨i, hi⟩)
    ∧ (((get_plan_ozet_range_data repo plan_title
          (some s) (some e)).totals.days.get? i).getD none).getD 0
      = rowsDaySum
          (get_plan_ozet_range_data repo plan_title (some s) (some e)).rows i := by
  have hsub := selectRecords_fst_sublist (normSpan s e).1 (normSpan s e).2
    (monthsOf (dateRange (normSpan s e).1 (normSpan s e).2))
    (listConfirmedByPlanTitle repo (pyStrip plan_title) 5000)
  have hsub2 := hsub.map (fun r : ReservationRecord => r.id)
  rw [List.map_map] at hsub2
  have hids' : ((selectRecords (normSpan s e).1 (normSpan s e).2
      (monthsOf (dateRange (normSpan s e).1 (normSpan s e).2))
      (listConfirmedByPlanTitle repo (pyStrip plan_title) 5000)).map
        (fun pr => pr.1.id)).Nodup :=
    List.Nodup.sublist hsub2 hids
  unfold get_plan_ozet_range_data
  dsimp only
  rw [if_neg hpt]
  exact rangeAssemble_day_conservation repo _ _ _ _ _ i hi hids' hnorm hreg

/-- C1 witness: the amended theorem applied at the registered-channel
repository, for the second day of the two-day range — one occupied cell,
row sum 1, totals cell 1. -/
theorem rollup_day_conservation_witness :
    pyStrip "P" ≠ "" ∧
    (rowsDaySum
        (get_plan_ozet_range_data repoC1w "P"
          (some ⟨2026, 2, 1⟩) (some ⟨2026, 2, 2⟩)).rows 1
      = occupiedCellsOnDate
          (selectRecords (normSpan ⟨2026, 2, 1⟩ ⟨2026, 2, 2⟩).1
            (normSpan ⟨2026, 2, 1⟩ ⟨2026, 2, 2⟩).2
            (monthsOf (dateRange (normSpan ⟨2026, 2, 1⟩ ⟨2026, 2, 2⟩).1
              (normSpan ⟨2026, 2, 1⟩ ⟨2026, 2, 2⟩).2))
            (listConfirmedByPlanTitle repoC1w (pyStrip "P") 5000))
          ((dateRange (normSpan ⟨2026, 2, 1⟩ ⟨2026, 2, 2⟩).1
            (normSpan ⟨2026, 2, 1⟩ ⟨2026, 2, 2⟩).2).get ⟨1, by decide⟩)
    ∧ (((get_plan_ozet_range_data repoC1w "P"
          (some ⟨2026, 2, 1⟩) (some ⟨2026, 2, 2⟩)).totals.days.get? 1).getD
            none).getD 0
      = rowsDaySum
          (get_plan_ozet_range_data repoC1w "P"
            (some ⟨2026, 2, 1⟩) (some ⟨2026, 2, 2⟩)).rows 1) :=
  ⟨by decide, rollup_day_conservation repoC1w "P" ⟨2026, 2, 1⟩ ⟨2026, 2, 2⟩ 1
    (by decide) (by decide) (by decide) (by decide) (by decide)⟩
